import Mathlib

/-!
Flusight time chart: cursor, scales and markers.

A shallow embedding of `src/modules/timechart.js` (class `TimeChart`) and
`src/modules/markers/timechart.js` (classes `Prediction`, `TimeRect`,
`HistoricalLines`, `Baseline`, `Actual`, `Observed`), and of `regionFilter` of
`parse/modules/utils.js`.

Conventions of the embedding

* JavaScript numbers are exact: weeks and indices are integers (`Int`), data
  values and pixels are rationals (`ℚ`).  Rounding of IEEE doubles is not modelled.
* A JavaScript object is a structure; a method that mutates `this` is a function
  returning the new object.  A method that can raise a `TypeError` (a property
  read on `undefined`) returns a `Completion`, which carries the object as the
  method left it when it returned or threw.
* A field that the constructor leaves unassigned is an `Option` (`none` is
  `undefined`).
* Of the DOM only what the methods decide is kept: the data bound to a shape, the
  visibility of a group, and the value handed to a scale for an attribute.
  Transitions, colours and event handlers are left out.
-/

namespace Flusight

/-! ## JavaScript values -/

/-- What a marker's `query` can return: `undefined`, `false` or a number. -/
inductive JSVal where
  | undef
  | fls
  | num (q : ℚ)
deriving DecidableEq

/-- How a mutating method ends: it returns (`done`) or raises (`threw`); either
way `s` is the object as the method left it. -/
inductive Completion (σ : Type) where
  | done (s : σ)
  | threw (s : σ)

/-- The object a method left behind, whether it returned or threw. -/
def Completion.state {σ : Type} : Completion σ → σ
  | .done s => s
  | .threw s => s

/-- True when the method returned normally. -/
def Completion.isDone {σ : Type} : Completion σ → Bool
  | .done _ => true
  | .threw _ => false

/-- JavaScript `a % b` on integers: the remainder takes the sign of `a`. -/
def jsMod (a b : Int) : Int := Int.tmod a b

/-- JavaScript `xs[i]` for an integer `i`: `none` is `undefined`. -/
def jsGet {α : Type} (xs : List α) (i : Int) : Option α :=
  if i < 0 then none else xs[i.toNat]?

/-- JavaScript `xs.indexOf(x)`: the first position of `x`, or `-1`. -/
def jsIndexOf {α : Type} [DecidableEq α] (xs : List α) (x : α) : Int :=
  if x ∈ xs then (xs.indexOf x : Int) else -1

/-- JavaScript `d % 1`: the fractional part, with the sign of `d`. -/
def jsFrac (d : ℚ) : ℚ :=
  if 0 ≤ d then d - ⌊d⌋ else d - ⌈d⌉

/-- A loop that pushes `f a` for each `a` in turn and stops at the first `f a`
that raises (`none`). -/
def pushEach {α β : Type} (f : α → Option β) : List α → Option (List β)
  | [] => some []
  | a :: rest =>
    match f a with
    | none => none
    | some b =>
      match pushEach f rest with
      | none => none
      | some bs => some (b :: bs)

/-! ## Data model -/

/-- One slot of the `actual` series: `{ week, data }`, `data = -1` when not yet known. -/
structure Observation where
  week : Int
  data : ℚ
deriving DecidableEq

/-- One revision of a week's value: `{ lag, value }`. -/
structure Revision where
  lag : Int
  value : ℚ
deriving DecidableEq

/-- One week of the observed series with all its revisions: `{ week, data: [...] }`. -/
structure ObservedRevision where
  week : Int
  data : List Revision
deriving DecidableEq

/-- A forecast target: `{ point, low: [...], high: [...] }`, the bounds indexed by `cid`. -/
structure Interval where
  point : ℚ
  low : List ℚ
  high : List ℚ
deriving DecidableEq

/-- One forecast issued at `week`, with its seven targets. -/
structure PredictionRecord where
  week : Int
  onsetWeek : Interval
  peakWeek : Interval
  peakPercent : Interval
  oneWk : Interval
  twoWk : Interval
  threeWk : Interval
  fourWk : Interval
deriving DecidableEq

/-- A model of the dataset: `{ id, predictions }`. -/
structure Model where
  id : String
  predictions : List PredictionRecord
deriving DecidableEq

/-- A past season of the dataset: `{ id, actual }`. -/
structure Season where
  id : String
  actual : List Observation
deriving DecidableEq

/-- The argument of `TimeChart.plot`: `{ actual, baseline, history, models }`;
`baseline = none` is `null`. -/
structure Dataset where
  actual : List Observation
  baseline : Option ℚ
  history : List Season
  models : List Model
deriving DecidableEq

/-- The functions of `utils/timechart` that the chart and its markers call.  That
module is not among the sources, so its functions are parameters of the embedding. -/
structure Util where
  getYMax : Dataset → ℚ
  getNextWeeks : Int → List Int → List Int

/-! ## Scales (`TimeChart.plot`, lines 145-157) -/

/-- The d3 linear scale `xScale` after `xScale.domain([0, weeks.length - 1])`, with
range `[0, width]`: `x ↦ (x - 0) / (weeks.length - 1 - 0) * (width - 0) + 0`. -/
def xScale (weeks : List Int) (width : ℚ) (x : ℚ) : ℚ :=
  x / ((weeks.length : ℚ) - 1) * width

/-- The week scale of line 157:
`(d) => xScale(weeks.indexOf(Math.floor(d))) + d % 1`. -/
def xScaleWeek (weeks : List Int) (width : ℚ) (d : ℚ) : ℚ :=
  xScale weeks width (jsIndexOf weeks ⌊d⌋) + jsFrac d

/-- The d3 linear scale `yScale` after `yScale.domain([0, yMax])`, with range
`[height, 0]`. -/
def yScale (yMax height : ℚ) (v : ℚ) : ℚ :=
  height + v / yMax * (0 - height)

/-! ## Marker `Actual` (lines 789-833) -/

/-- State of an `Actual` marker: the series kept for queries, the datum of
`.line-actual` and the data bound to the `.point-actual` circles. -/
structure Actual where
  data : Option (List Observation)
  line : List Observation
  circles : List Observation
deriving DecidableEq

/-- The marker as `new Actual(parent)` leaves it: an empty path, no data. -/
def Actual.create : Actual := { data := none, line := [], circles := [] }

/-- `Actual.plot(parent, data)`: keep `data` for queries, bind
`data.filter(d => d.data != -1)` to the line and to the circles. -/
def Actual.plot (a : Actual) (data : List Observation) : Actual :=
  { a with
    data := some data
    line := data.filter (fun d => decide (d.data ≠ -1))
    circles := data.filter (fun d => decide (d.data ≠ -1)) }

/-- `Actual.query(idx)`: `this.data[idx].data`; `none` when the read raises. -/
def Actual.query (a : Actual) (idx : Int) : Option ℚ :=
  match a.data with
  | none => none
  | some data =>
    match jsGet data idx with
    | none => none
    | some d => some d.data

/-! ## Marker `Observed` (lines 838-904) -/

/-- State of an `Observed` marker.  `circles` is the data bound to the
`.point-observed` circles, element by element, when `update` binds it; `line` is
the datum of `.line-observed`, which is the array object that `update` reverses in
place before it returns. -/
structure Observed where
  data : Option (List ObservedRevision)
  filteredData : Option (List Observation)
  circles : List Observation
  line : List Observation
deriving DecidableEq

/-- The marker as `new Observed(parent)` leaves it. -/
def Observed.create : Observed :=
  { data := none, filteredData := none, circles := [], line := [] }

/-- `Observed.plot(parent, data)`: save the revision series. -/
def Observed.plot (o : Observed) (data : List ObservedRevision) : Observed :=
  { o with data := some data }

/-- The object pushed at step `i` of the loop of `Observed.update(idx)`:
`{ week: this.data[idx - i].week,
   data: this.data[idx - i].data.filter(d => d.lag === i)[0].value }`;
`none` when one of the two reads raises. -/
def Observed.entryAt (data : Option (List ObservedRevision)) (idx : Int) (i : Nat) :
    Option Observation :=
  match data with
  | none => none
  | some data =>
    match jsGet data (idx - i) with
    | none => none
    | some e =>
      match (e.data.filter (fun d => decide (d.lag = (i : Int)))).head? with
      | none => none
      | some r => some { week := e.week, data := r.value }

/-- `Observed.update(idx)`: the loop `for (let i = 0; i <= idx; i++)` builds
`filteredData`, the circles and the line are bound to it, then it is reversed in
place and stored.  When the loop raises nothing has been assigned yet. -/
def Observed.update (o : Observed) (idx : Int) : Completion Observed :=
  match pushEach (Observed.entryAt o.data idx) (List.range (idx + 1).toNat) with
  | none => .threw o
  | some fd =>
    .done { o with circles := fd, line := fd.reverse, filteredData := some fd.reverse }

/-- `Observed.query(idx)`: `this.filteredData[idx].data`, or `false` when that raises. -/
def Observed.query (o : Observed) (idx : Int) : JSVal :=
  match o.filteredData with
  | none => .fls
  | some fd =>
    match jsGet fd idx with
    | none => .fls
    | some p => .num p.data

/-! ## Marker `Baseline` (lines 728-784) -/

/-- State of a `Baseline` marker: the visibility of its group and the value handed
to `yScale` for the line (`y1`, `y2`) and for the title (`dy`); `none` is the
placement of the constructor, at `parent.height`. -/
structure Baseline where
  visible : Bool
  line : Option ℚ
  title : Option ℚ
deriving DecidableEq

/-- The marker as `new Baseline(parent)` leaves it: no visibility style is set. -/
def Baseline.create : Baseline := { visible := true, line := none, title := none }

/-- `Baseline.hide()`. -/
def Baseline.hide (b : Baseline) : Baseline := { b with visible := false }

/-- `Baseline.show()`. -/
def Baseline.show (b : Baseline) : Baseline := { b with visible := true }

/-- Truthiness of the `data` argument of `Baseline.plot`: `null` and `0` are falsy. -/
def Baseline.truthy : Option ℚ → Bool
  | none => false
  | some v => decide (v ≠ 0)

/-- `Baseline.plot(parent, data)`: `if (data) this.show() else { this.hide(); return }`,
then the line and the title move to `yScale(data)`. -/
def Baseline.plot (b : Baseline) (data : Option ℚ) : Baseline :=
  if Baseline.truthy data then
    { b.show with line := data, title := data }
  else
    b.hide

/-! ## Marker `TimeRect` (lines 405-427) -/

/-- State of the `TimeRect` marker: the series saved by `plot` and the local week
handed to the scale for the `width` attribute (`none`: the width `0` of the
constructor). -/
structure TimeRect where
  data : Option (List Observation)
  width : Option Int
deriving DecidableEq

/-- The marker as `new TimeRect(parent)` leaves it. -/
def TimeRect.create : TimeRect := { data := none, width := none }

/-- `TimeRect.plot(parent, data)`: save the series (and the scale). -/
def TimeRect.plot (t : TimeRect) (data : List Observation) : TimeRect :=
  { t with data := some data }

/-- `TimeRect.update(idx)`: `width` becomes `this.scale(this.data[idx].week % 100)`;
the read of `.week` raises when `this.data[idx]` is `undefined`. -/
def TimeRect.update (t : TimeRect) (idx : Int) : Completion TimeRect :=
  match t.data with
  | none => .threw t
  | some data =>
    match jsGet data idx with
    | none => .threw t
    | some d => .done { t with width := some (jsMod d.week 100) }

/-! ## Marker `HistoricalLines` (lines 429-494) -/

/-- State of a `HistoricalLines` marker: the visibility of its group and, for each
path, the season id and the datum bound to it. -/
structure HistoricalLines where
  visible : Bool
  paths : List Season
deriving DecidableEq

/-- The marker as `new HistoricalLines(parent)` leaves it. -/
def HistoricalLines.create : HistoricalLines := { visible := true, paths := [] }

/-- `HistoricalLines.plot(parent, data)`: clear the group, show or hide it after
`parent.historyShow`, and append one path per season. -/
def HistoricalLines.plot (_h : HistoricalLines) (historyShow : Bool) (data : List Season) :
    HistoricalLines :=
  { visible := historyShow, paths := data }

/-! ## Marker `Prediction` (lines 5-400) -/

/-- An element of the array `data` built by `Prediction.update`:
`{ week, data, low, high }`; `low` and `high` are `none` when `low[cid]` or
`high[cid]` is `undefined`. -/
structure TrajectoryPoint where
  week : Int
  data : ℚ
  low : Option ℚ
  high : Option ℚ
deriving DecidableEq

/-- The array `displayedData` of a `Prediction`: its elements and its property
`-1`, which `displayedData[weeks.indexOf(w)] = v` assigns when `w` is not a week
of the chart. -/
structure Cache where
  elems : List JSVal
  neg : JSVal
deriving DecidableEq

/-- JavaScript `xs[i] = v` for `i ≥ 0`: past the end the array grows, the gap
reading `undefined`. -/
def jsArraySet (xs : List JSVal) (i : Nat) (v : JSVal) : List JSVal :=
  if i < xs.length then xs.set i v
  else xs ++ List.replicate (i - xs.length) JSVal.undef ++ [v]

/-- JavaScript `displayedData[i] = v` for an index `i` returned by `indexOf`. -/
def Cache.set (c : Cache) (i : Int) (v : JSVal) : Cache :=
  if i = -1 then { c with neg := v }
  else if 0 ≤ i then { c with elems := jsArraySet c.elems i.toNat v }
  else c

/-- JavaScript `displayedData[i]`. -/
def Cache.get (c : Cache) (i : Int) : JSVal :=
  if i = -1 then c.neg
  else
    match jsGet c.elems i with
    | none => .undef
    | some v => v

/-- The fields that `Prediction.plot` assigns. -/
structure Binding where
  data : List PredictionRecord
  actual : List Observation
  weeks : List Int
  legendHidden : Bool
  displayedData : Cache
deriving DecidableEq

/-- The values handed to the week scale for the onset group: the mark (`cx`) and
the two ends of the range. -/
structure OnsetShape where
  mark : ℚ
  low : Option ℚ
  high : Option ℚ
deriving DecidableEq

/-- The values handed to the scales for the peak group: the mark (`cx`, `cy`) and
the ends of the two ranges. -/
structure PeakShape where
  week : ℚ
  percent : ℚ
  weekLow : Option ℚ
  weekHigh : Option ℚ
  percentLow : Option ℚ
  percentHigh : Option ℚ
deriving DecidableEq

/-- State of a `Prediction` marker.  `bound` is `none` until `plot` has run;
`hidden` is `false` while the field is still unassigned (it is only read for
truthiness); the three `…Visible` flags are false when the group has
`visibility: hidden`; `removed` is set by `clear()`; `displayedPoints` is
`(onset, peak)`; `trajectory` is the datum of the line and of the area. -/
structure Prediction where
  id : String
  cid : Nat
  bound : Option Binding
  hidden : Bool
  onsetVisible : Bool
  peakVisible : Bool
  predictionVisible : Bool
  removed : Bool
  displayedPoints : Option (ℚ × ℚ)
  onset : Option OnsetShape
  peak : Option PeakShape
  trajectory : List TrajectoryPoint
deriving DecidableEq

/-- The marker as `new Prediction(parent, id, …)` leaves it: three groups without a
visibility style, `this.id = id`, `this.cid = parent.cid`. -/
def Prediction.create (cid : Nat) (id : String) : Prediction :=
  { id := id, cid := cid, bound := none, hidden := false,
    onsetVisible := true, peakVisible := true, predictionVisible := true,
    removed := false, displayedPoints := none, onset := none, peak := none,
    trajectory := [] }

/-- Truthiness of `parent.predictionsShow[id]`. -/
def showFlag (predictionsShow : List (String × Bool)) (id : String) : Bool :=
  match predictionsShow.lookup id with
  | none => false
  | some b => b

/-- `Prediction.plot(parent, data, actual)`: bind the data, the weeks of the chart
and the legend flag, and reset `displayedData` to
`Array(this.weeks.length).fill(false)`. -/
def Prediction.plot (p : Prediction) (predictionsShow : List (String × Bool))
    (weeks : List Int) (data : List PredictionRecord) (actual : List Observation) :
    Prediction :=
  { p with
    bound := some
      { data := data
        actual := actual
        weeks := weeks
        legendHidden := !(showFlag predictionsShow p.id)
        displayedData := { elems := List.replicate weeks.length JSVal.fls, neg := JSVal.undef } } }

/-- `Prediction.hideMarkers()`. -/
def Prediction.hideMarkers (p : Prediction) : Prediction :=
  { p with onsetVisible := false, peakVisible := false, predictionVisible := false }

/-- `Prediction.showMarkers()`: `if (this.hidden) return`, else the three groups
lose their visibility style. -/
def Prediction.showMarkers (p : Prediction) : Prediction :=
  if p.hidden then p
  else { p with onsetVisible := true, peakVisible := true, predictionVisible := true }

/-- `Prediction.clear()`: the three groups are removed from the chart. -/
def Prediction.clear (p : Prediction) : Prediction := { p with removed := true }

/-- `predData[names[index]]` with `names = ['oneWk', 'twoWk', 'threeWk', 'fourWk']`;
`none` (`undefined`) when `index` is past the names. -/
def horizon (r : PredictionRecord) : Nat → Option Interval
  | 0 => some r.oneWk
  | 1 => some r.twoWk
  | 2 => some r.threeWk
  | 3 => some r.fourWk
  | _ => none

/-- The object pushed by `nextWeeks.forEach((item, index) => data.push({...}))`;
`none` when reading `.point` of `predData[names[index]]` raises. -/
def Prediction.horizonPoint (cid : Nat) (predData : PredictionRecord) :
    Nat × Int → Option TrajectoryPoint
  | (index, item) =>
    match horizon predData index with
    | none => none
    | some iv => some { week := item, data := iv.point, low := iv.low[cid]?, high := iv.high[cid]? }

/-- The loop "Save week indexed data" (lines 318-321):
`data.forEach((d, index) => { if (index > 0) dd[weeks.indexOf(d.week)] = d.data
else dd[weeks.indexOf(d.week)] = false })`. -/
def Prediction.saveWeekIndexed (weeks : List Int) (c : Cache) (data : List TrajectoryPoint) :
    Cache :=
  data.enum.foldl
    (fun c x =>
      if x.1 > 0 then c.set (jsIndexOf weeks x.2.week) (JSVal.num x.2.data)
      else c.set (jsIndexOf weeks x.2.week) JSVal.fls)
    c

/-- `Prediction.update(idx)` (lines 119-360).  Without a record whose
`week % 100` is `this.weeks[idx]` the marker is hidden.  Otherwise the groups are
shown unless the legend hides them, the onset and the peak move to the targets of
the record, the trajectory is built from the actual value at the record's week
and the horizon targets at the weeks of `util.getNextWeeks`, and its values are
saved by week index.  The reads `this.weeks[idx]` (on an unbound marker),
`actual.filter(d => d.week == startWeek)[0].data` and
`predData[names[index]].point` can raise. -/
def Prediction.update (u : Util) (p : Prediction) (idx : Int) : Completion Prediction :=
  match p.bound with
  | none => .threw p
  | some b =>
    let week := jsGet b.weeks idx
    let localPosition := jsIndexOf (b.data.map (fun d => some (jsMod d.week 100))) week
    if localPosition = -1 then
      .done ({ p with hidden := true }).hideMarkers
    else
      let p1 := { p with hidden := false }
      let p2 := if !b.legendHidden then p1.showMarkers else p1
      match jsGet b.data localPosition with
      | none => .threw p2
      | some predData =>
        let onset := predData.onsetWeek
        let pw := predData.peakWeek
        let pp := predData.peakPercent
        let p3 := { p2 with
          displayedPoints := some (onset.point, pw.point)
          onset := some { mark := onset.point, low := onset.low[p.cid]?, high := onset.high[p.cid]? }
          peak := some
            { week := pw.point, percent := pp.point
              weekLow := pw.low[p.cid]?, weekHigh := pw.high[p.cid]?
              percentLow := pp.low[p.cid]?, percentHigh := pp.high[p.cid]? } }
        let startWeek := predData.week
        match (b.actual.filter (fun d => decide (d.week = startWeek))).head? with
        | none => .threw p3
        | some a =>
          let startData := a.data
          let nextWeeks := u.getNextWeeks startWeek b.weeks
          match pushEach (Prediction.horizonPoint p.cid predData) nextWeeks.enum with
          | none => .threw p3
          | some rest =>
            let data : List TrajectoryPoint :=
              { week := jsMod startWeek 100, data := startData,
                low := some startData, high := some startData } :: rest
            .done { p3 with
              bound := some { b with
                displayedData := Prediction.saveWeekIndexed b.weeks b.displayedData data }
              trajectory := data }

/-- `Prediction.query(idx)`: `false` when the marker is hidden or the legend hides
it, else `this.displayedData[idx]`; `none` when that read raises (unbound marker). -/
def Prediction.query (p : Prediction) (idx : Int) : Option JSVal :=
  match p.bound with
  | none => if p.hidden then some .fls else none
  | some b =>
    if p.hidden || b.legendHidden then some .fls
    else some (b.displayedData.get idx)

/-! ## The chart `TimeChart` (`src/modules/timechart.js`) -/

/-- The object `{ idx, name }` handed to the week hook and returned by
`getNextWeekData` and `getPreviousWeekData`.  `idx = none` is `NaN`, `name = none`
is `undefined`. -/
structure WeekData where
  idx : Option Int
  name : Option Int
deriving DecidableEq

/-- State of a `TimeChart`.  `width` and `height` are fixed by the constructor.
`cid`, `predictionsShow` and `historyShow` are the fields `parent.cid`,
`parent.predictionsShow` and `parent.historyShow` that the markers read; this class
never assigns them, they are set by the host of the chart.  `yMax` is the upper end
of the domain of `yScale` (`1` until `plot` sets it).  `weeks` and `weekIdx` are
unassigned until `plot` has run.  `hooked` lists the calls of `weekHook`, oldest
first. -/
structure TimeChart where
  width : ℚ
  height : ℚ
  cid : Nat
  predictionsShow : List (String × Bool)
  historyShow : Bool
  yMax : ℚ
  weeks : Option (List Int)
  weekIdx : Option Int
  timerect : TimeRect
  baseline : Baseline
  actual : Actual
  history : Option HistoricalLines
  predictions : List Prediction
  hooked : List WeekData
deriving DecidableEq

/-- The chart as the constructor leaves it (lines 7-65). -/
def TimeChart.create (width height : ℚ) (cid : Nat) (predictionsShow : List (String × Bool))
    (historyShow : Bool) : TimeChart :=
  { width := width, height := height, cid := cid, predictionsShow := predictionsShow,
    historyShow := historyShow, yMax := 1, weeks := none, weekIdx := none,
    timerect := TimeRect.create, baseline := Baseline.create, actual := Actual.create,
    history := none, predictions := [], hooked := [] }

/-- The loop of lines 209-213: for each model a new `Prediction` is constructed,
plotted and pushed on `this.predictions`. -/
def TimeChart.pushModels (cid : Nat) (predictionsShow : List (String × Bool))
    (weeks : List Int) (actual : List Observation) (predictions : List Prediction) :
    List Model → List Prediction
  | [] => predictions
  | m :: rest =>
    let predMarker := Prediction.create cid m.id
    let predMarker := predMarker.plot predictionsShow weeks m.predictions actual
    TimeChart.pushModels cid predictionsShow weeks actual (predictions ++ [predMarker]) rest

/-- `TimeChart.plot(data)` (lines 136-242): the domains of the scales, `weeks`, the
cursor at the last index and its notification to the week hook, then the markers in
turn: time rectangle, baseline, actual line, a new history marker, and the
predictions (`this.predictions.map(p => p.clear())`, then one new marker pushed per
model). -/
def TimeChart.plot (u : Util) (c : TimeChart) (data : Dataset) : TimeChart :=
  let weeks := data.actual.map (fun d => jsMod d.week 100)
  let weekIdx : Int := (data.actual.length : Int) - 1
  let cleared := c.predictions.map Prediction.clear
  { c with
    yMax := u.getYMax data
    weeks := some weeks
    weekIdx := some weekIdx
    hooked := c.hooked ++ [{ idx := some weekIdx, name := jsGet weeks weekIdx }]
    timerect := c.timerect.plot data.actual
    baseline := c.baseline.plot data.baseline
    actual := c.actual.plot data.actual
    history := some (HistoricalLines.create.plot c.historyShow data.history)
    predictions :=
      TimeChart.pushModels c.cid c.predictionsShow weeks data.actual cleared data.models }

/-- The loop `this.predictions.forEach(p => { p.update(idx) })`: a marker that raises
ends the loop, the markers after it are left as they were. -/
def TimeChart.updateEach (u : Util) (idx : Int) : List Prediction → Completion (List Prediction)
  | [] => .done []
  | p :: rest =>
    match p.update u idx with
    | .threw p1 => .threw (p1 :: rest)
    | .done p1 =>
      match TimeChart.updateEach u idx rest with
      | .threw rest1 => .threw (p1 :: rest1)
      | .done rest1 => .done (p1 :: rest1)

/-- `TimeChart.update(idx)` (lines 247-255): `this.weekIdx = idx`, then
`this.timerect.update(idx)`, then every prediction marker in turn. -/
def TimeChart.update (u : Util) (c : TimeChart) (idx : Int) : Completion TimeChart :=
  let c1 := { c with weekIdx := some idx }
  match c1.timerect.update idx with
  | .threw t => .threw { c1 with timerect := t }
  | .done t =>
    let c2 := { c1 with timerect := t }
    match TimeChart.updateEach u idx c2.predictions with
    | .threw ps => .threw { c2 with predictions := ps }
    | .done ps => .done { c2 with predictions := ps }

/-- `Math.min(a, b)` where `b` may be `NaN` (`none`). -/
def jsMin (a : Int) (b : Option Int) : Option Int := b.map (fun b => min a b)

/-- `Math.max(a, b)` where `b` may be `NaN` (`none`). -/
def jsMax (a : Int) (b : Option Int) : Option Int := b.map (fun b => max a b)

/-- `this.weeks[i]` where `i` may be `NaN` (`none`). -/
def weekName (weeks : List Int) (i : Option Int) : Option Int :=
  match i with
  | none => none
  | some i => jsGet weeks i

/-- `TimeChart.getNextWeekData()` (lines 263-269): the returned object and the chart
afterwards; `none` when reading `this.weeks.length` raises. -/
def TimeChart.getNextWeekData (c : TimeChart) : Option (WeekData × TimeChart) :=
  match c.weeks with
  | none => none
  | some weeks =>
    let nextIdx := jsMin ((weeks.length : Int) - 1) (c.weekIdx.map (fun i => i + 1))
    some ({ idx := nextIdx, name := weekName weeks nextIdx }, c)

/-- `TimeChart.getPreviousWeekData()` (lines 274-280): the returned object and the
chart afterwards; `none` when reading `this.weeks[...]` raises. -/
def TimeChart.getPreviousWeekData (c : TimeChart) : Option (WeekData × TimeChart) :=
  let previousIdx := jsMax 0 (c.weekIdx.map (fun i => i - 1))
  match c.weeks with
  | none => none
  | some weeks => some ({ idx := previousIdx, name := weekName weeks previousIdx }, c)

/-- Modelled from the spec: an instance of `Util`, whose module `utils/timechart` is
not among the sources, used to evaluate the chart on concrete datasets.  The spec
places trajectory point `k` at "the local week `k` steps after the issuing week",
weeks past the last tracked week being "clipped/omitted": `getNextWeeks` returns the
up to four entries of `weeks` that follow the issuing local week.  `getYMax` is the
maximum of the actual series (it only sets the domain of `yScale`). -/
def sampleUtil : Util where
  getYMax := fun data => (data.actual.map (fun d => d.data)).foldl max 0
  getNextWeeks := fun currentWeek weeks =>
    (weeks.drop ((jsIndexOf weeks (jsMod currentWeek 100) + 1).toNat)).take 4

/-! ## `regionFilter` (`parse/modules/utils.js`, lines 29-57) -/

/-- A row of the array returned by `transform.longToJson`, as far as `regionFilter`
reads it: `{ region, point, low, high }`. -/
structure Row where
  region : String
  point : ℚ
  low : List ℚ
  high : List ℚ
deriving DecidableEq

/-- The array `keyOrder` of `regionFilter`. -/
def keyOrder : List String :=
  ["onsetWeek", "peakWeek", "peakPercent", "oneWk", "twoWk", "threeWk", "fourWk"]

/-- The property name that `filtered[keyOrder[idx]] = ...` assigns: past the end of
`keyOrder` the key is `undefined`, whose property name is `"undefined"`. -/
def keyName (idx : Nat) : String :=
  match keyOrder[idx]? with
  | none => "undefined"
  | some k => k

/-- JavaScript `obj[k] = v` on an object kept as the list of its properties in
insertion order: an existing property is overwritten in place, a new one is added
last. -/
def objSet (obj : List (String × Interval)) (k : String) (v : Interval) :
    List (String × Interval) :=
  if obj.any (fun e => decide (e.1 = k)) then
    obj.map (fun e => if e.1 = k then (k, v) else e)
  else obj ++ [(k, v)]

/-- `regionFilter(data, region)`:
`data.filter(d => d.region == region).forEach((d, idx) => {
   filtered[keyOrder[idx]] = { point: d.point, low: d.low, high: d.high } })`,
starting from `filtered = {}`. -/
def regionFilter (data : List Row) (region : String) : List (String × Interval) :=
  (data.filter (fun d => decide (d.region = region))).enum.foldl
    (fun filtered x =>
      objSet filtered (keyName x.1) { point := x.2.point, low := x.2.low, high := x.2.high })
    []

/-! ## Sample data -/

/-- A chart with weeks `[40, 41, 42]` and the cursor on the last of them. -/
def chartAtLastWeek : TimeChart :=
  { TimeChart.create 100 50 0 [] false with weeks := some [40, 41, 42], weekIdx := some 2 }

/-- The spec's example for `Observed`: weeks 100, 101 and 102, the value of week
`w` at lag `l` being `10 * w + l`. -/
def threeWeeks : List ObservedRevision :=
  [ { week := 100, data := [{ lag := 0, value := 1000 }, { lag := 1, value := 1001 },
                            { lag := 2, value := 1002 }] },
    { week := 101, data := [{ lag := 0, value := 1010 }, { lag := 1, value := 1011 }] },
    { week := 102, data := [{ lag := 0, value := 1020 }] } ]

/-- An `Observed` marker plotted with `threeWeeks`. -/
def threeWeeksObserved : Observed := Observed.create.plot threeWeeks

/-- The spec's example for `Actual`: week 1 not yet known, week 2 at `5.0`. -/
def sentinelThenFive : List Observation :=
  [{ week := 1, data := -1 }, { week := 2, data := 5 }]

/-- A forecast issued at week 201540. -/
def sampleRecord : PredictionRecord :=
  { week := 201540
    onsetWeek := { point := 45, low := [44], high := [46] }
    peakWeek := { point := 2, low := [1], high := [3] }
    peakPercent := { point := 5, low := [4], high := [6] }
    oneWk := { point := 11, low := [10], high := [12] }
    twoWk := { point := 21, low := [20], high := [22] }
    threeWk := { point := 31, low := [30], high := [32] }
    fourWk := { point := 41, low := [40], high := [42] } }

/-- Three weeks of the season that starts at week 201540. -/
def sampleActual : List Observation :=
  [{ week := 201540, data := 1 }, { week := 201541, data := 2 }, { week := 201542, data := 3 }]

/-- A dataset with one model `m`, which forecasts at week 201540 only. -/
def sampleDataset : Dataset :=
  { actual := sampleActual, baseline := some 2, history := [],
    models := [{ id := "m", predictions := [sampleRecord] }] }

/-- A newly constructed chart whose host shows model `m`. -/
def sampleChart : TimeChart := TimeChart.create 100 50 0 [("m", true)] false

/-- A dataset whose actual series is of the season that starts at week 201640, while
model `m` holds its forecast of week 201540: the local weeks agree, the weeks do not. -/
def otherSeasonDataset : Dataset :=
  { actual := [{ week := 201640, data := 1 }, { week := 201641, data := 2 },
               { week := 201642, data := 3 }],
    baseline := some 2, history := [],
    models := [{ id := "m", predictions := [sampleRecord] }] }

/-- Model `m` bound to weeks `[40, 41, 42]` on a chart whose host does not show it
(`predictionsShow` has no entry for `m`): a newly constructed marker, plotted once. -/
def legendOffMarker : Prediction :=
  (Prediction.create 0 "m").plot [] [40, 41, 42] [sampleRecord] sampleActual

/-- Seven weeks of the season that starts at week 201540. -/
def sevenWeeksActual : List Observation :=
  [{ week := 201540, data := 1 }, { week := 201541, data := 2 }, { week := 201542, data := 3 },
   { week := 201543, data := 4 }, { week := 201544, data := 5 }, { week := 201545, data := 6 },
   { week := 201546, data := 7 }]

/-- A forecast issued at week 201545. -/
def laterRecord : PredictionRecord :=
  { week := 201545
    onsetWeek := { point := 45, low := [44], high := [46] }
    peakWeek := { point := 2, low := [1], high := [3] }
    peakPercent := { point := 5, low := [4], high := [6] }
    oneWk := { point := 16, low := [15], high := [17] }
    twoWk := { point := 26, low := [25], high := [27] }
    threeWk := { point := 36, low := [35], high := [37] }
    fourWk := { point := 46, low := [45], high := [47] } }

/-- Model `m`, shown by the legend, bound to the seven weeks 40 to 46 with its
forecasts of weeks 201540 and 201545. -/
def sevenWeeksMarker : Prediction :=
  (Prediction.create 0 "m").plot [("m", true)] [40, 41, 42, 43, 44, 45, 46]
    [sampleRecord, laterRecord] sevenWeeksActual

/-- Rows of two regions: three of `nat` with one of `hhs1` between them. -/
def sampleRows : List Row :=
  [{ region := "nat", point := 1, low := [0], high := [2] },
   { region := "hhs1", point := 9, low := [8], high := [10] },
   { region := "nat", point := 3, low := [2], high := [4] },
   { region := "nat", point := 5, low := [4], high := [6] }]

/-! ## Lemmas on the JavaScript helpers -/

theorem jsGet_natCast {α : Type} (xs : List α) (n : Nat) : jsGet xs (n : Int) = xs[n]? := by
  unfold jsGet
  have h : ¬ ((n : Int) < 0) := by omega
  rw [if_neg h, Int.toNat_natCast]

theorem jsGet_of_neg {α : Type} (xs : List α) (i : Int) (h : i < 0) : jsGet xs i = none := by
  unfold jsGet
  rw [if_pos h]

theorem jsGet_of_length_le {α : Type} (xs : List α) (i : Int) (h : (xs.length : Int) ≤ i) :
    jsGet xs i = none := by
  unfold jsGet
  have h0 : ¬ (i < 0) := by omega
  rw [if_neg h0]
  apply List.getElem?_eq_none
  omega

theorem jsIndexOf_of_not_mem {α : Type} [DecidableEq α] (xs : List α) (x : α) (h : x ∉ xs) :
    jsIndexOf xs x = -1 := by
  unfold jsIndexOf
  rw [if_neg h]

theorem jsIndexOf_of_mem {α : Type} [DecidableEq α] (xs : List α) (x : α) (h : x ∈ xs) :
    jsIndexOf xs x = (xs.indexOf x : Int) := by
  unfold jsIndexOf
  rw [if_pos h]

theorem pushEach_length {α β : Type} (f : α → Option β) :
    ∀ (l : List α) (bs : List β), pushEach f l = some bs → bs.length = l.length
  | [], bs, h => by
    simp only [pushEach, Option.some.injEq] at h
    subst h
    rfl
  | a :: rest, bs, h => by
    simp only [pushEach] at h
    cases hfa : f a with
    | none => simp [hfa] at h
    | some b =>
      cases hr : pushEach f rest with
      | none => simp [hfa, hr] at h
      | some bs1 =>
        simp only [hfa, hr, Option.some.injEq] at h
        subst h
        simp [pushEach_length f rest bs1 hr]

theorem pushEach_getElem? {α β : Type} (f : α → Option β) :
    ∀ (l : List α) (bs : List β), pushEach f l = some bs →
      ∀ (n : Nat) (a : α), l[n]? = some a → f a = bs[n]?
  | [], _, _, n, a, hn => by simp at hn
  | a0 :: rest, bs, h, n, a, hn => by
    simp only [pushEach] at h
    cases hfa : f a0 with
    | none => simp [hfa] at h
    | some b =>
      cases hr : pushEach f rest with
      | none => simp [hfa, hr] at h
      | some bs1 =>
        simp only [hfa, hr, Option.some.injEq] at h
        subst h
        cases n with
        | zero =>
          simp only [List.getElem?_cons_zero, Option.some.injEq] at hn
          subst hn
          simpa using hfa
        | succ m =>
          simp only [List.getElem?_cons_succ] at hn ⊢
          exact pushEach_getElem? f rest bs1 hr m a hn

theorem pushEach_of_forall_some {α β : Type} (f : α → Option β) :
    ∀ (l : List α), (∀ a ∈ l, ∃ b, f a = some b) → ∃ bs, pushEach f l = some bs
  | [], _ => ⟨[], rfl⟩
  | a :: rest, h => by
    obtain ⟨b, hb⟩ := h a (List.mem_cons_self a rest)
    obtain ⟨bs, hbs⟩ := pushEach_of_forall_some f rest
      (fun x hx => h x (List.mem_cons_of_mem a hx))
    exact ⟨b :: bs, by simp [pushEach, hb, hbs]⟩

theorem jsIndexOf_ge {α : Type} [DecidableEq α] (xs : List α) (x : α) : -1 ≤ jsIndexOf xs x := by
  unfold jsIndexOf
  split <;> omega

theorem jsIndexOf_getElem? {α : Type} [DecidableEq α] (xs : List α) (x : α) (h : x ∈ xs) :
    ∃ n : Nat, jsIndexOf xs x = (n : Int) ∧ xs[n]? = some x := by
  refine ⟨xs.indexOf x, jsIndexOf_of_mem xs x h, ?_⟩
  have hlt : xs.indexOf x < xs.length := List.indexOf_lt_length.mpr h
  rw [List.getElem?_eq_getElem hlt, List.getElem_indexOf hlt]

theorem jsIndexOf_ne_of_ne {α : Type} [DecidableEq α] (xs : List α) (x y : α) (hx : x ∈ xs)
    (hxy : y ≠ x) : jsIndexOf xs y ≠ jsIndexOf xs x := by
  by_cases hy : y ∈ xs
  · rw [jsIndexOf_of_mem xs y hy, jsIndexOf_of_mem xs x hx]
    intro h
    have h1 : xs.indexOf y = xs.indexOf x := by exact_mod_cast h
    exact hxy ((List.indexOf_inj hy hx).mp h1)
  · rw [jsIndexOf_of_not_mem xs y hy, jsIndexOf_of_mem xs x hx]
    omega

/-- The position that `xs.map(f).indexOf(x)` returns is that of the first element
whose image is `x`. -/
theorem jsIndexOf_map_of_find? {α β : Type} [DecidableEq β] (f : α → β) (x : β) :
    ∀ (l : List α) (r : α), l.find? (fun d => decide (f d = x)) = some r →
      ∃ n : Nat, jsIndexOf (l.map f) x = (n : Int) ∧ l[n]? = some r ∧ f r = x
  | [], r, h => by simp at h
  | a :: l, r, h => by
    by_cases ha : f a = x
    · have hr : a = r := by simpa [List.find?, ha] using h
      subst hr
      refine ⟨0, ?_, by simp, ha⟩
      rw [jsIndexOf_of_mem _ _ (by simp [ha])]
      simp [List.indexOf_cons_eq _ ha]
    · have h1 : l.find? (fun d => decide (f d = x)) = some r := by
        simpa [List.find?, ha] using h
      obtain ⟨n, hn, hget, hfr⟩ := jsIndexOf_map_of_find? f x l r h1
      have hmem : x ∈ l.map f := by
        by_contra hcon
        rw [jsIndexOf_of_not_mem _ _ hcon] at hn
        omega
      refine ⟨n + 1, ?_, by simpa using hget, hfr⟩
      rw [jsIndexOf_of_mem _ _ hmem] at hn
      rw [jsIndexOf_of_mem _ _ (by simp only [List.map_cons]; exact List.mem_cons_of_mem _ hmem)]
      simp only [List.map_cons, List.indexOf_cons_ne _ ha]
      have hn1 : List.indexOf x (l.map f) = n := by exact_mod_cast hn
      rw [hn1]

/-! ## Lemmas on the array `displayedData` -/

theorem Cache.get_set_self (c : Cache) (i : Int) (v : JSVal) (hi : -1 ≤ i) :
    (c.set i v).get i = v := by
  by_cases h1 : i = -1
  · simp [Cache.set, Cache.get, h1]
  · have h0 : 0 ≤ i := by omega
    simp only [Cache.set, Cache.get, if_neg h1, if_pos h0, jsGet, if_neg (not_lt.mpr h0),
      jsArraySet]
    by_cases hlt : i.toNat < c.elems.length
    · simp [hlt]
    · have hlen : (c.elems ++ List.replicate (i.toNat - c.elems.length) JSVal.undef).length
          = i.toNat := by
        simp only [List.length_append, List.length_replicate]
        omega
      rw [if_neg hlt, List.getElem?_append_right (by omega), hlen]
      simp

theorem Cache.get_set_of_ne (c : Cache) (i j : Int) (v : JSVal) (hij : i ≠ j) :
    (c.set i v).get j = c.get j := by
  by_cases h1 : i = -1
  · have hj : j ≠ -1 := by omega
    simp [Cache.set, Cache.get, h1, hj]
  · by_cases h0 : 0 ≤ i
    · simp only [Cache.set, if_neg h1, if_pos h0, Cache.get]
      by_cases hj : j = -1
      · simp [hj]
      · simp only [if_neg hj]
        by_cases hj0 : j < 0
        · simp [jsGet, hj0]
        · have hne : i.toNat ≠ j.toNat := by omega
          simp only [jsGet, if_neg hj0, jsArraySet]
          by_cases hlt : i.toNat < c.elems.length
          · simp [hlt, List.getElem?_set_ne hne]
          · simp only [if_neg hlt]
            by_cases hjl : j.toNat < c.elems.length
            · rw [List.append_assoc, List.getElem?_append_left hjl]
            · have hnone : c.elems[j.toNat]? = none := List.getElem?_eq_none (by omega)
              rw [hnone, List.append_assoc, List.getElem?_append_right (by omega),
                List.getElem?_append]
              by_cases hjr : j.toNat - c.elems.length < i.toNat - c.elems.length
              · simp [hjr, List.getElem?_replicate]
              · have hpos : j.toNat - c.elems.length - (i.toNat - c.elems.length) ≠ 0 := by omega
                simp only [List.length_replicate, if_neg hjr]
                rw [List.getElem?_eq_none]
                simp only [List.length_singleton]
                omega
    · simp [Cache.set, h1, h0]

theorem Cache.get_foldl_of_forall_ne {γ : Type} (key : γ → Int) (val : γ → JSVal) (j : Int) :
    ∀ (l : List γ) (c : Cache), (∀ x ∈ l, key x ≠ j) →
      (l.foldl (fun c x => c.set (key x) (val x)) c).get j = c.get j
  | [], _, _ => rfl
  | a :: l, c, h => by
    rw [List.foldl_cons, Cache.get_foldl_of_forall_ne key val j l _
      (fun x hx => h x (List.mem_cons_of_mem a hx))]
    exact Cache.get_set_of_ne c _ _ _ (h a (List.mem_cons_self a l))

theorem Cache.get_foldl_last_write {γ : Type} (key : γ → Int) (val : γ → JSVal)
    (pre post : List γ) (x : γ) (c : Cache) (hx : -1 ≤ key x)
    (hpost : ∀ y ∈ post, key y ≠ key x) :
    ((pre ++ x :: post).foldl (fun c x => c.set (key x) (val x)) c).get (key x) = val x := by
  rw [List.foldl_append, List.foldl_cons, Cache.get_foldl_of_forall_ne key val _ post _ hpost]
  exact Cache.get_set_self _ _ _ hx

/-! ## Lemmas on `Prediction.update` -/

theorem foldl_enumFrom_succ (weeks : List Int) :
    ∀ (rest : List TrajectoryPoint) (n : Nat) (c : Cache),
      (List.enumFrom (n + 1) rest).foldl
          (fun c (x : Nat × TrajectoryPoint) =>
            if x.1 > 0 then c.set (jsIndexOf weeks x.2.week) (JSVal.num x.2.data)
            else c.set (jsIndexOf weeks x.2.week) JSVal.fls)
          c =
        rest.foldl (fun c d => c.set (jsIndexOf weeks d.week) (JSVal.num d.data)) c
  | [], _, _ => rfl
  | d :: rest, n, c => by
    simp only [List.enumFrom_cons, List.foldl_cons]
    rw [if_pos (by omega)]
    exact foldl_enumFrom_succ weeks rest (n + 1) _

/-- The loop "Save week indexed data" writes `false` at the index of the first week
and then, in order, each later value at the index of its week. -/
theorem Prediction.saveWeekIndexed_cons (weeks : List Int) (c : Cache) (d0 : TrajectoryPoint)
    (rest : List TrajectoryPoint) :
    Prediction.saveWeekIndexed weeks c (d0 :: rest) =
      rest.foldl (fun c d => c.set (jsIndexOf weeks d.week) (JSVal.num d.data))
        (c.set (jsIndexOf weeks d0.week) JSVal.fls) := by
  simp only [Prediction.saveWeekIndexed, List.enum_cons, List.foldl_cons]
  rw [if_neg (by omega)]
  exact foldl_enumFrom_succ weeks rest 0 _

theorem horizon_of_lt (r : PredictionRecord) (k : Nat) (hk : k < 4) : ∃ iv, horizon r k = some iv := by
  interval_cases k
  · exact ⟨_, rfl⟩
  · exact ⟨_, rfl⟩
  · exact ⟨_, rfl⟩
  · exact ⟨_, rfl⟩

/-- With at most four next weeks the loop over them pushes one point per week. -/
theorem Prediction.horizonPoints_exist (cid : Nat) (r : PredictionRecord) (nextWeeks : List Int)
    (h4 : nextWeeks.length ≤ 4) :
    ∃ rest, pushEach (Prediction.horizonPoint cid r) nextWeeks.enum = some rest := by
  apply pushEach_of_forall_some
  intro a ha
  have hlt : a.1 < nextWeeks.length := List.fst_lt_of_mem_enum ha
  obtain ⟨iv, hiv⟩ := horizon_of_lt r a.1 (by omega)
  obtain ⟨k, w⟩ := a
  exact ⟨_, by simp only [Prediction.horizonPoint]; simp only at hiv; rw [hiv]⟩

/-- The point pushed for the `k`-th next week carries that week and the `k`-th
horizon target of the record, its bounds read at `cid`. -/
theorem Prediction.horizonPoints_getElem? (cid : Nat) (r : PredictionRecord)
    (nextWeeks : List Int) (rest : List TrajectoryPoint)
    (h : pushEach (Prediction.horizonPoint cid r) nextWeeks.enum = some rest)
    (k : Nat) (w : Int) (hw : nextWeeks[k]? = some w) :
    ∃ iv, horizon r k = some iv ∧
      rest[k]? = some { week := w, data := iv.point, low := iv.low[cid]?, high := iv.high[cid]? } := by
  have henum : nextWeeks.enum[k]? = some (k, w) := by
    rw [List.getElem?_enum, hw]
    rfl
  have hk := pushEach_getElem? _ _ _ h k (k, w) henum
  have hlen : rest.length = nextWeeks.length := by
    rw [pushEach_length _ _ _ h, List.enum_length]
  have hklt : k < rest.length := by
    rw [hlen]
    exact (List.getElem?_eq_some.mp hw).1
  cases hiv : horizon r k with
  | none =>
    simp only [Prediction.horizonPoint, hiv] at hk
    rw [List.getElem?_eq_getElem hklt] at hk
    exact absurd hk (by simp)
  | some iv =>
    simp only [Prediction.horizonPoint, hiv] at hk
    exact ⟨iv, rfl, hk.symm⟩

theorem Prediction.horizonPoints_weeks (cid : Nat) (r : PredictionRecord)
    (nextWeeks : List Int) (rest : List TrajectoryPoint)
    (h : pushEach (Prediction.horizonPoint cid r) nextWeeks.enum = some rest) :
    rest.map (fun d => d.week) = nextWeeks := by
  have hlen : rest.length = nextWeeks.length := by
    rw [pushEach_length _ _ _ h, List.enum_length]
  apply List.ext_getElem?
  intro k
  rw [List.getElem?_map]
  by_cases hk : k < nextWeeks.length
  · have hw : nextWeeks[k]? = some nextWeeks[k] := List.getElem?_eq_getElem hk
    obtain ⟨iv, _, hget⟩ := Prediction.horizonPoints_getElem? cid r nextWeeks rest h k _ hw
    rw [hget, hw]
    rfl
  · rw [List.getElem?_eq_none (by omega), List.getElem?_eq_none (by omega)]
    rfl

/-- `Prediction.update(idx)` on a bound marker, when a record is located for
`weeks[idx]`, the actual series has its week and the next weeks are at most four:
the update returns, the marker is not hidden, the groups are shown unless the legend
hides them, and the cache and the trajectory are assigned. -/
theorem Prediction.update_of_match (u : Util) (p : Prediction) (b : Binding) (idx : Int)
    (r : PredictionRecord) (a : Observation) (rest : List TrajectoryPoint)
    (hb : p.bound = some b)
    (hr : b.data.find? (fun d => decide (some (jsMod d.week 100) = jsGet b.weeks idx)) = some r)
    (ha : b.actual.find? (fun d => decide (d.week = r.week)) = some a)
    (hrest : pushEach (Prediction.horizonPoint p.cid r) (u.getNextWeeks r.week b.weeks).enum
      = some rest) :
    ∃ p1, p.update u idx = Completion.done p1 ∧
      p1.hidden = false ∧
      p1.trajectory =
        { week := jsMod r.week 100, data := a.data, low := some a.data, high := some a.data }
          :: rest ∧
      p1.bound = some { b with
        displayedData := Prediction.saveWeekIndexed b.weeks b.displayedData
          ({ week := jsMod r.week 100, data := a.data, low := some a.data, high := some a.data }
            :: rest) } ∧
      p1.onsetVisible = (if b.legendHidden then p.onsetVisible else true) ∧
      p1.peakVisible = (if b.legendHidden then p.peakVisible else true) ∧
      p1.predictionVisible = (if b.legendHidden then p.predictionVisible else true) ∧
      p1.onset = some { mark := r.onsetWeek.point, low := r.onsetWeek.low[p.cid]?,
                        high := r.onsetWeek.high[p.cid]? } ∧
      p1.peak = some { week := r.peakWeek.point, percent := r.peakPercent.point,
                       weekLow := r.peakWeek.low[p.cid]?, weekHigh := r.peakWeek.high[p.cid]?,
                       percentLow := r.peakPercent.low[p.cid]?,
                       percentHigh := r.peakPercent.high[p.cid]? } ∧
      p1.cid = p.cid ∧ p1.id = p.id := by
  obtain ⟨n, hn, hget, _⟩ :=
    jsIndexOf_map_of_find? (fun d : PredictionRecord => some (jsMod d.week 100))
      (jsGet b.weeks idx) b.data r hr
  have hne : ¬ ((n : Int) = -1) := by omega
  have hfilter : (b.actual.filter (fun d => decide (d.week = r.week))).head? = some a := by
    rw [List.filter_head?]
    exact ha
  have hupd : p.update u idx = Completion.done (p.update u idx).state := by
    simp only [Prediction.update, hb, hn, if_neg hne, jsGet_natCast, hget, hfilter, hrest,
      Completion.state]
  refine ⟨(p.update u idx).state, hupd, ?_⟩
  simp only [Prediction.update, hb, hn, if_neg hne, jsGet_natCast, hget, hfilter, hrest,
    Completion.state]
  cases hl : b.legendHidden <;> simp [Prediction.showMarkers]

/-! ## The cursor: `getNextWeekData` and `getPreviousWeekData` -/

/-- C1. On a chart with weeks `weeks` and cursor `k` in `[0, weeks.length - 1]`,
`getNextWeekData` returns `idx = min(weeks.length - 1, k + 1)` and
`getPreviousWeekData` returns `idx = max(0, k - 1)`; both indices lie in
`[0, weeks.length - 1]`, the next index at the last index is that index, the
previous index at `0` is `0`, the returned name is `weeks[idx]` (a week, not
`undefined`), and the chart, its cursor included, is left as it was. -/
theorem getWeekData_clamps_cursor (c : TimeChart) (weeks : List Int) (k : Int)
    (hw : c.weeks = some weeks) (hk : c.weekIdx = some k)
    (h0 : 0 ≤ k) (h1 : k ≤ (weeks.length : Int) - 1) :
    c.getNextWeekData =
        some ({ idx := some (min ((weeks.length : Int) - 1) (k + 1)),
                name := jsGet weeks (min ((weeks.length : Int) - 1) (k + 1)) }, c) ∧
      c.getPreviousWeekData =
        some ({ idx := some (max 0 (k - 1)), name := jsGet weeks (max 0 (k - 1)) }, c) ∧
      (0 ≤ min ((weeks.length : Int) - 1) (k + 1) ∧
        min ((weeks.length : Int) - 1) (k + 1) ≤ (weeks.length : Int) - 1) ∧
      (0 ≤ max 0 (k - 1) ∧ max 0 (k - 1) ≤ (weeks.length : Int) - 1) ∧
      (k = (weeks.length : Int) - 1 → min ((weeks.length : Int) - 1) (k + 1) = k) ∧
      (k = 0 → max 0 (k - 1) = 0) ∧
      (∃ w, jsGet weeks (min ((weeks.length : Int) - 1) (k + 1)) = some w) ∧
      (∃ w, jsGet weeks (max 0 (k - 1)) = some w) ∧
      (c.getNextWeekData.map (fun r => r.2.weekIdx) = some (some k)) ∧
      (c.getPreviousWeekData.map (fun r => r.2.weekIdx) = some (some k)) := by
  have inRange : ∀ i : Int, 0 ≤ i → i ≤ (weeks.length : Int) - 1 → ∃ w, jsGet weeks i = some w := by
    intro i hi0 hi1
    have hlt : i.toNat < weeks.length := by omega
    refine ⟨weeks[i.toNat], ?_⟩
    unfold jsGet
    rw [if_neg (by omega), List.getElem?_eq_getElem hlt]
  have hn : c.getNextWeekData =
      some ({ idx := some (min ((weeks.length : Int) - 1) (k + 1)),
              name := jsGet weeks (min ((weeks.length : Int) - 1) (k + 1)) }, c) := by
    simp [TimeChart.getNextWeekData, hw, hk, jsMin, weekName]
  have hp : c.getPreviousWeekData =
      some ({ idx := some (max 0 (k - 1)), name := jsGet weeks (max 0 (k - 1)) }, c) := by
    simp [TimeChart.getPreviousWeekData, hw, hk, jsMax, weekName]
  refine ⟨hn, hp, ⟨by omega, by omega⟩, ⟨by omega, by omega⟩, by omega, by omega,
    inRange _ (by omega) (by omega), inRange _ (by omega) (by omega), ?_, ?_⟩
  · rw [hn]; simp [hk]
  · rw [hp]; simp [hk]

/-- C1, witness: weeks `[40, 41, 42]` with the cursor at the last index `2`. -/
theorem getWeekData_clamps_cursor_witness :
    chartAtLastWeek.getNextWeekData =
        some ({ idx := some 2, name := some 42 }, chartAtLastWeek) ∧
      chartAtLastWeek.getPreviousWeekData =
        some ({ idx := some 1, name := some 41 }, chartAtLastWeek) :=
  have h := getWeekData_clamps_cursor chartAtLastWeek [40, 41, 42] 2 rfl rfl
    (by decide) (by decide)
  ⟨h.1, h.2.1⟩

/-! ## The observed line -/

theorem Observed.entryAt_mirror (data : List ObservedRevision) (idx j : Nat) (hj : j ≤ idx)
    (e : ObservedRevision) (r : Revision) (he : data[j]? = some e)
    (hr : e.data.find? (fun d => decide (d.lag = (idx : Int) - (j : Int))) = some r) :
    Observed.entryAt (some data) (idx : Int) (idx - j) = some { week := e.week, data := r.value } := by
  have hlag : (((idx - j : Nat) : Int)) = (idx : Int) - (j : Int) := by omega
  simp only [Observed.entryAt, hlag, sub_sub_cancel, jsGet_natCast, he, List.filter_head?, hr]

/-- C2. For an `Observed` marker plotted with the revision series `data` and an
index `idx` in `[0, data.length - 1]` such that every week `j ≤ idx` has a revision
with lag `idx - j`, `update(idx)` returns and stores a list of exactly `idx + 1`
entries; for every `j` in `0..idx`, entry `j` carries the week of `data[j]` and the
value of the revision of `data[j]` with lag `idx - j` (the first one, should several
carry that lag), and `query(j)` returns that value. -/
theorem observed_update_pairs_week_with_lag (o : Observed) (data : List ObservedRevision) (idx : Nat)
    (hdata : o.data = some data) (hidx : idx < data.length)
    (hrev : ∀ j : Nat, j ≤ idx → ∀ e, data[j]? = some e →
      ∃ r ∈ e.data, r.lag = (idx : Int) - (j : Int)) :
    ∃ (o1 : Observed) (fd : List Observation),
      o.update (idx : Int) = Completion.done o1 ∧ o1.filteredData = some fd ∧
      fd.length = idx + 1 ∧
      ∀ j : Nat, j ≤ idx →
        ∃ (e : ObservedRevision) (r : Revision),
          data[j]? = some e ∧
          e.data.find? (fun d => decide (d.lag = (idx : Int) - (j : Int))) = some r ∧
          fd[j]? = some { week := e.week, data := r.value } ∧
          o1.query (j : Int) = JSVal.num r.value := by
  -- every step of the loop finds its week and its revision
  have hstep : ∀ j : Nat, j ≤ idx → ∃ (e : ObservedRevision) (r : Revision),
      data[j]? = some e ∧
      e.data.find? (fun d => decide (d.lag = (idx : Int) - (j : Int))) = some r ∧
      Observed.entryAt (some data) (idx : Int) (idx - j) =
        some { week := e.week, data := r.value } := by
    intro j hj
    have hjlt : j < data.length := by omega
    have he : data[j]? = some data[j] := List.getElem?_eq_getElem hjlt
    obtain ⟨r0, hr0, hlag0⟩ := hrev j hj _ he
    have hsome : (data[j].data.find? (fun d => decide (d.lag = (idx : Int) - (j : Int)))).isSome := by
      rw [List.find?_isSome]
      exact ⟨r0, hr0, by simpa using hlag0⟩
    obtain ⟨r, hr⟩ := Option.isSome_iff_exists.mp hsome
    exact ⟨data[j], r, he, hr, Observed.entryAt_mirror data idx j hj _ r he hr⟩
  have hall : ∀ i ∈ List.range (idx + 1), ∃ b, Observed.entryAt (some data) (idx : Int) i = some b := by
    intro i hi
    have hi1 : i < idx + 1 := List.mem_range.mp hi
    obtain ⟨e, r, _, _, h⟩ := hstep (idx - i) (by omega)
    have hii : idx - (idx - i) = i := by omega
    rw [hii] at h
    exact ⟨_, h⟩
  obtain ⟨fd0, hfd0⟩ := pushEach_of_forall_some _ _ hall
  have hlen : fd0.length = idx + 1 := by
    rw [pushEach_length _ _ _ hfd0, List.length_range]
  have hto : ((idx : Int) + 1).toNat = idx + 1 := by omega
  refine ⟨{ o with circles := fd0, line := fd0.reverse, filteredData := some fd0.reverse },
    fd0.reverse, ?_, rfl, by rw [List.length_reverse, hlen], ?_⟩
  · simp only [Observed.update, hdata, hto, hfd0]
  · intro j hj
    obtain ⟨e, r, he, hr, hent⟩ := hstep j hj
    have hget : fd0.reverse[j]? = some { week := e.week, data := r.value } := by
      rw [List.getElem?_reverse (by omega), hlen]
      have hidx2 : idx + 1 - 1 - j = idx - j := by omega
      rw [hidx2, ← pushEach_getElem? _ _ _ hfd0 (idx - j) (idx - j)
        (List.getElem?_range (by omega)), hent]
    refine ⟨e, r, he, hr, hget, ?_⟩
    simp only [Observed.query, jsGet_natCast, hget]

/-- C2, witness: the spec's example.  At `update(2)` over weeks 100, 101, 102 the
stored list pairs week 100 with its lag-2 value, week 101 with its lag-1 value and
week 102 with its lag-0 value. -/
theorem observed_update_pairs_week_with_lag_witness :
    (threeWeeksObserved.update 2).state.filteredData =
        some [{ week := 100, data := 1002 }, { week := 101, data := 1011 },
              { week := 102, data := 1020 }] ∧
      ∃ (o1 : Observed) (fd : List Observation),
        threeWeeksObserved.update ((2 : Nat) : Int) = Completion.done o1 ∧
        o1.filteredData = some fd ∧ fd.length = 2 + 1 ∧
        ∀ j : Nat, j ≤ 2 →
          ∃ (e : ObservedRevision) (r : Revision),
            threeWeeks[j]? = some e ∧
            e.data.find? (fun d => decide (d.lag = ((2 : Nat) : Int) - (j : Int))) = some r ∧
            fd[j]? = some { week := e.week, data := r.value } ∧
            o1.query (j : Int) = JSVal.num r.value :=
  ⟨by decide,
   observed_update_pairs_week_with_lag threeWeeksObserved threeWeeks 2 rfl (by decide)
    (by
      intro j hj e he
      interval_cases j
      · simp only [threeWeeks, List.getElem?_cons_zero, Option.some.injEq] at he
        subst he
        exact ⟨{ lag := 2, value := 1002 }, by simp, rfl⟩
      · simp only [threeWeeks, List.getElem?_cons_succ, List.getElem?_cons_zero,
          Option.some.injEq] at he
        subst he
        exact ⟨{ lag := 1, value := 1011 }, by simp, rfl⟩
      · simp only [threeWeeks, List.getElem?_cons_succ, List.getElem?_cons_zero,
          Option.some.injEq] at he
        subst he
        exact ⟨{ lag := 0, value := 1020 }, by simp, rfl⟩)⟩

/-! ## The cache of a prediction marker -/

theorem not_mem_drop_succ_of_nodup (l : List Int) (k : Nat) (w : Int) (hn : l.Nodup)
    (hw : l[k]? = some w) : w ∉ l.drop (k + 1) := by
  have hsplit := List.take_append_drop (k + 1) l
  rw [← hsplit] at hn
  have hd := (List.nodup_append.mp hn).2.2
  have hmem : w ∈ l.take (k + 1) := by
    apply List.getElem?_mem (n := k)
    rw [List.getElem?_take_of_lt (by omega), hw]
  exact fun h => hd hmem h

theorem mem_of_jsGet {α : Type} (xs : List α) (i : Int) (x : α) (h : jsGet xs i = some x) :
    x ∈ xs := by
  unfold jsGet at h
  split at h
  · simp at h
  · exact List.getElem?_mem h

/-- In a list without repetition `indexOf` returns the one index of an element. -/
theorem jsIndexOf_of_nodup (weeks : List Int) (j : Nat) (w : Int) (hn : weeks.Nodup)
    (hw : weeks[j]? = some w) : jsIndexOf weeks w = (j : Int) := by
  obtain ⟨hj, hget⟩ := List.getElem?_eq_some.mp hw
  rw [jsIndexOf_of_mem weeks w (List.getElem?_mem hw), ← hget, List.indexOf_getElem hn j hj]

/-- C3. Let a `Prediction` marker be freshly bound by `plot` with its legend toggle
on, let `r` be the record that `update(idx)` locates (the first one with
`r.week % 100 == weeks[idx]`), and let the actual series contain `r.week`.  With
`util.getNextWeeks(r.week, weeks)` returning at most four weeks, distinct from one
another and from the issuing local week, `update(idx)` returns, and afterwards: for
each horizon `k` (counted from `0`: `oneWk`, `twoWk`, `threeWk`, `fourWk`) whose
target week, the `k`-th week returned by `getNextWeeks`, has index `j` in `weeks`
(the first one, should the week occur twice), `query(j)` is the point value of the
`k`-th horizon target of `r`; and `query` at the index of the issuing local week is
`false`.  When the weeks of the chart are distinct (one slot per local week), `j`
is any index at which the target week occurs, and the index of the issuing local
week is `idx`. -/
theorem prediction_update_caches_horizon_points (u : Util) (p0 : Prediction)
    (predictionsShow : List (String × Bool)) (weeks : List Int) (data : List PredictionRecord)
    (actual : List Observation) (idx : Int) (r : PredictionRecord)
    (hlegend : showFlag predictionsShow p0.id = true)
    (hr : data.find? (fun d => decide (some (jsMod d.week 100) = jsGet weeks idx)) = some r)
    (ha : ∃ a ∈ actual, a.week = r.week)
    (h4 : (u.getNextWeeks r.week weeks).length ≤ 4)
    (hnodup : (jsMod r.week 100 :: u.getNextWeeks r.week weeks).Nodup) :
    ∃ p1, (p0.plot predictionsShow weeks data actual).update u idx = Completion.done p1 ∧
      (∀ (k : Nat) (w : Int) (iv : Interval) (j : Nat),
          (u.getNextWeeks r.week weeks)[k]? = some w → horizon r k = some iv →
          jsIndexOf weeks w = (j : Int) →
          p1.query (j : Int) = some (JSVal.num iv.point)) ∧
      p1.query (jsIndexOf weeks (jsMod r.week 100)) = some JSVal.fls ∧
      (weeks.Nodup →
        (∀ (k : Nat) (w : Int) (iv : Interval) (j : Nat),
          (u.getNextWeeks r.week weeks)[k]? = some w → horizon r k = some iv →
          weeks[j]? = some w →
          p1.query (j : Int) = some (JSVal.num iv.point)) ∧
        jsGet weeks idx = some (jsMod r.week 100) ∧
        p1.query idx = some JSVal.fls) := by
  have hsome : (actual.find? (fun d => decide (d.week = r.week))).isSome := by
    rw [List.find?_isSome]
    obtain ⟨a, ha1, ha2⟩ := ha
    exact ⟨a, ha1, by simpa using ha2⟩
  obtain ⟨a, hfa⟩ := Option.isSome_iff_exists.mp hsome
  obtain ⟨rest, hrest⟩ := Prediction.horizonPoints_exist p0.cid r _ h4
  obtain ⟨p1, hupd, hhid, _, hbound, _⟩ :=
    Prediction.update_of_match u (p0.plot predictionsShow weeks data actual)
      { data := data, actual := actual, weeks := weeks,
        legendHidden := !(showFlag predictionsShow p0.id),
        displayedData := { elems := List.replicate weeks.length JSVal.fls, neg := JSVal.undef } }
      idx r a rest rfl hr hfa hrest
  have hweeks := Prediction.horizonPoints_weeks p0.cid r _ rest hrest
  have hlocal : jsMod r.week 100 ∈ weeks := by
    have h1 := List.find?_some hr
    simp only [decide_eq_true_eq] at h1
    exact mem_of_jsGet weeks idx _ h1.symm
  have hquery : ∀ i : Int, p1.query i =
      some ((rest.foldl (fun c d => c.set (jsIndexOf weeks d.week) (JSVal.num d.data))
        ((Cache.mk (List.replicate weeks.length JSVal.fls) JSVal.undef).set
          (jsIndexOf weeks (jsMod r.week 100)) JSVal.fls)).get i) := by
    intro i
    simp only [Prediction.query, hbound, hhid, hlegend, Prediction.saveWeekIndexed_cons]
    rfl
  have hhorizon : ∀ (k : Nat) (w : Int) (iv : Interval) (j : Nat),
      (u.getNextWeeks r.week weeks)[k]? = some w → horizon r k = some iv →
      jsIndexOf weeks w = (j : Int) →
      p1.query (j : Int) = some (JSVal.num iv.point) := by
    intro k w iv j hw hiv hj
    obtain ⟨iv1, hiv1, hget⟩ := Prediction.horizonPoints_getElem? p0.cid r _ rest hrest k w hw
    rw [hiv] at hiv1
    cases hiv1
    have hklt : k < rest.length := (List.getElem?_eq_some.mp hget).1
    have hrk : rest[k] =
        { week := w, data := iv.point, low := (iv.low[p0.cid]?), high := (iv.high[p0.cid]?) } :=
      (List.getElem?_eq_some.mp hget).2
    have hwmem : w ∈ weeks := by
      by_contra hcon
      rw [jsIndexOf_of_not_mem weeks w hcon] at hj
      omega
    have hsplit : rest = rest.take k ++ rest[k] :: rest.drop (k + 1) := by
      rw [List.getElem_cons_drop, List.take_append_drop]
    have hpost : ∀ y ∈ rest.drop (k + 1),
        jsIndexOf weeks y.week ≠ jsIndexOf weeks (rest[k]).week := by
      intro y hy
      rw [hrk]
      apply jsIndexOf_ne_of_ne weeks w y.week hwmem
      intro hyw
      have hymem : y.week ∈ (u.getNextWeeks r.week weeks).drop (k + 1) := by
        rw [← hweeks, ← List.map_drop]
        exact List.mem_map.mpr ⟨y, hy, rfl⟩
      rw [hyw] at hymem
      exact not_mem_drop_succ_of_nodup _ k w (List.nodup_cons.mp hnodup).2 hw hymem
    have hlast := Cache.get_foldl_last_write (fun d : TrajectoryPoint => jsIndexOf weeks d.week)
      (fun d => JSVal.num d.data) (rest.take k) (rest.drop (k + 1)) rest[k]
      ((Cache.mk (List.replicate weeks.length JSVal.fls) JSVal.undef).set
          (jsIndexOf weeks (jsMod r.week 100)) JSVal.fls)
      (jsIndexOf_ge _ _) hpost
    rw [← hsplit, hrk] at hlast
    simp only at hlast
    rw [hquery, ← hj, hlast]
  have hissuing : p1.query (jsIndexOf weeks (jsMod r.week 100)) = some JSVal.fls := by
    rw [hquery, Cache.get_foldl_of_forall_ne, Cache.get_set_self _ _ _ (jsIndexOf_ge _ _)]
    intro y hy
    apply jsIndexOf_ne_of_ne weeks _ y.week hlocal
    intro hyw
    have hymem : y.week ∈ u.getNextWeeks r.week weeks := by
      rw [← hweeks]
      exact List.mem_map.mpr ⟨y, hy, rfl⟩
    rw [hyw] at hymem
    exact (List.nodup_cons.mp hnodup).1 hymem
  have hlocalget : jsGet weeks idx = some (jsMod r.week 100) := by
    have h1 := List.find?_some hr
    simp only [decide_eq_true_eq] at h1
    exact h1.symm
  refine ⟨p1, hupd, hhorizon, hissuing, ?_⟩
  intro hnd
  refine ⟨fun k w iv j hw hiv hj =>
    hhorizon k w iv j hw hiv (jsIndexOf_of_nodup weeks j w hnd hj), hlocalget, ?_⟩
  have hidx0 : ¬ (idx < 0) := by
    intro hneg
    rw [jsGet_of_neg weeks idx hneg] at hlocalget
    exact absurd hlocalget (by simp)
  have hnat : jsGet weeks idx = weeks[idx.toNat]? := by
    unfold jsGet
    rw [if_neg hidx0]
  have hfirst := jsIndexOf_of_nodup weeks idx.toNat _ hnd (hnat ▸ hlocalget)
  rw [Int.toNat_of_nonneg (by omega)] at hfirst
  rw [← hfirst]
  exact hissuing

/-- C3, witness: model `m` bound to weeks `[40, 41, 42]` with its forecast of week
201540.  After `update(0)` the cache answers `11` (`oneWk`) at index 1, `21`
(`twoWk`) at index 2 and `false` at index 0. -/
theorem prediction_update_caches_horizon_points_witness :
    ∃ p1, ((Prediction.create 0 "m").plot [("m", true)] [40, 41, 42] [sampleRecord]
          sampleActual).update sampleUtil 0 = Completion.done p1 ∧
      p1.query 1 = some (JSVal.num 11) ∧ p1.query 2 = some (JSVal.num 21) ∧
      p1.query 0 = some JSVal.fls := by
  obtain ⟨p1, hupd, hk, h0⟩ :=
    prediction_update_caches_horizon_points sampleUtil (Prediction.create 0 "m") [("m", true)]
      [40, 41, 42] [sampleRecord] sampleActual 0 sampleRecord (by decide) (by decide)
      ⟨{ week := 201540, data := 1 }, by decide, by decide⟩ (by decide) (by decide)
  exact ⟨p1, hupd, hk 0 41 sampleRecord.oneWk 1 (by decide) rfl (by decide),
    hk 1 42 sampleRecord.twoWk 2 (by decide) rfl (by decide), (h0.2 (by decide)).2.2⟩

/-- `Prediction.update(idx)` on a bound marker without a record for `weeks[idx]`:
the marker is hidden and nothing else changes. -/
theorem Prediction.update_of_no_match (u : Util) (p : Prediction) (b : Binding) (idx : Int)
    (hb : p.bound = some b)
    (hnone : ∀ d ∈ b.data, some (jsMod d.week 100) ≠ jsGet b.weeks idx) :
    p.update u idx = Completion.done
      { p with hidden := true, onsetVisible := false, peakVisible := false,
               predictionVisible := false } := by
  have hnot : jsGet b.weeks idx ∉ b.data.map (fun d => some (jsMod d.week 100)) := by
    intro hmem
    obtain ⟨d, hd, hdw⟩ := List.mem_map.mp hmem
    exact hnone d hd hdw
  simp only [Prediction.update, hb, jsIndexOf_of_not_mem _ _ hnot, if_true,
    Prediction.hideMarkers]

theorem TimeChart.updateEach_cons_of_done (u : Util) (idx : Int) (p p1 : Prediction)
    (post : List Prediction) (hp : p.update u idx = Completion.done p1) :
    (TimeChart.updateEach u idx (p :: post)).state
        = p1 :: (TimeChart.updateEach u idx post).state ∧
      (TimeChart.updateEach u idx (p :: post)).isDone
        = (TimeChart.updateEach u idx post).isDone := by
  simp only [TimeChart.updateEach, hp]
  cases TimeChart.updateEach u idx post <;> simp [Completion.state, Completion.isDone]

/-- A marker whose update returns does not change what the loop over the markers
does to the others: without it the loop ends the same way and leaves the same
markers. -/
theorem TimeChart.updateEach_without (u : Util) (idx : Int) (p p1 : Prediction)
    (hp : p.update u idx = Completion.done p1) :
    ∀ (pre post : List Prediction),
      ((TimeChart.updateEach u idx (pre ++ p :: post)).state).eraseIdx pre.length
          = (TimeChart.updateEach u idx (pre ++ post)).state ∧
        (TimeChart.updateEach u idx (pre ++ p :: post)).isDone
          = (TimeChart.updateEach u idx (pre ++ post)).isDone
  | [], post => by
    have h := TimeChart.updateEach_cons_of_done u idx p p1 post hp
    simp only [List.nil_append, List.length_nil]
    rw [h.1, h.2]
    exact ⟨rfl, rfl⟩
  | q :: pre, post => by
    have ih := TimeChart.updateEach_without u idx p p1 hp pre post
    cases hq : q.update u idx with
    | threw q1 =>
      simp only [List.cons_append, TimeChart.updateEach, hq, Completion.state,
        Completion.isDone, List.length_cons, List.eraseIdx_cons_succ]
      simp only [and_true]
      have hcut : (pre ++ p :: post).eraseIdx pre.length = pre ++ post := by
        rw [List.eraseIdx_append_of_length_le (le_refl _)]
        simp
      exact congrArg (List.cons q1) hcut
    | done q1 =>
      have h1 := TimeChart.updateEach_cons_of_done u idx q q1 (pre ++ p :: post) hq
      have h2 := TimeChart.updateEach_cons_of_done u idx q q1 (pre ++ post) hq
      simp only [List.cons_append, List.length_cons]
      rw [h1.1, h1.2, h2.1, h2.2, List.eraseIdx_cons_succ, ih.1, ih.2]
      exact ⟨rfl, rfl⟩

/-- C4. For a bound `Prediction` marker and an index `idx` such that no record of
its data has `week % 100 == weeks[idx]`, `update(idx)` returns, the marker is marked
hidden and its three groups are hidden, what `plot` bound (the cached values
included) is untouched, and `query(j)` is `false` for every `j`.  The other markers
are unaffected: wherever the marker stands among the markers of the chart, the loop
that updates them ends the same way and leaves the same other markers as it does
without this marker. -/
theorem prediction_update_without_record (u : Util) (p : Prediction) (b : Binding) (idx : Int)
    (pre post : List Prediction)
    (hb : p.bound = some b)
    (hnone : ∀ d ∈ b.data, some (jsMod d.week 100) ≠ jsGet b.weeks idx) :
    ∃ p1, p.update u idx = Completion.done p1 ∧
      p1.hidden = true ∧
      (p1.onsetVisible = false ∧ p1.peakVisible = false ∧ p1.predictionVisible = false) ∧
      p1.bound = some b ∧
      (∀ j : Int, p1.query j = some JSVal.fls) ∧
      ((TimeChart.updateEach u idx (pre ++ p :: post)).state).eraseIdx pre.length
          = (TimeChart.updateEach u idx (pre ++ post)).state ∧
      (TimeChart.updateEach u idx (pre ++ p :: post)).isDone
          = (TimeChart.updateEach u idx (pre ++ post)).isDone := by
  have hupd := Prediction.update_of_no_match u p b idx hb hnone
  have hiso := TimeChart.updateEach_without u idx p _ hupd pre post
  refine ⟨_, hupd, rfl, ⟨rfl, rfl, rfl⟩, hb, ?_, hiso.1, hiso.2⟩
  intro j
  simp [Prediction.query, hb]

/-- C4, witness: model `m` forecasts at week 201540 only; at index 1 (week 41) it has
no record.  It stands between two other markers. -/
theorem prediction_update_without_record_witness :
    ∃ p1, ((Prediction.create 0 "m").plot [("m", true)] [40, 41, 42] [sampleRecord]
          sampleActual).update sampleUtil 1 = Completion.done p1 ∧
      p1.hidden = true ∧ (∀ j : Int, p1.query j = some JSVal.fls) := by
  obtain ⟨p1, hupd, hhid, _, _, hq, _⟩ :=
    prediction_update_without_record sampleUtil
      ((Prediction.create 0 "m").plot [("m", true)] [40, 41, 42] [sampleRecord] sampleActual)
      { data := [sampleRecord], actual := sampleActual, weeks := [40, 41, 42],
        legendHidden := false,
        displayedData := { elems := [JSVal.fls, JSVal.fls, JSVal.fls], neg := JSVal.undef } }
      1 [Prediction.create 0 "a"] [Prediction.create 0 "z"] rfl (by decide)
  exact ⟨p1, hupd, hhid, hq⟩

/-! ## The chart: `plot` and `update` -/

theorem TimeChart.pushModels_eq (cid : Nat) (predictionsShow : List (String × Bool))
    (weeks : List Int) (actual : List Observation) :
    ∀ (models : List Model) (predictions : List Prediction),
      TimeChart.pushModels cid predictionsShow weeks actual predictions models =
        predictions ++ models.map (fun m =>
          (Prediction.create cid m.id).plot predictionsShow weeks m.predictions actual)
  | [], predictions => by simp [TimeChart.pushModels]
  | m :: rest, predictions => by
    simp only [TimeChart.pushModels, List.map_cons]
    rw [TimeChart.pushModels_eq cid predictionsShow weeks actual rest, List.append_assoc]
    rfl

/-- The markers on the chart after `plot(data)`: every marker that was there before,
cleared, followed by one new marker per model of `data`. -/
theorem TimeChart.plot_predictions (u : Util) (c : TimeChart) (data : Dataset) :
    (c.plot u data).predictions =
      c.predictions.map Prediction.clear ++
        data.models.map (fun m =>
          (Prediction.create c.cid m.id).plot c.predictionsShow
            (data.actual.map (fun d => jsMod d.week 100)) m.predictions data.actual) := by
  simp only [TimeChart.plot, TimeChart.pushModels_eq]

/-- A bound marker whose located record, if any, has its week in the actual series
returns from `update`, provided `getNextWeeks` yields at most four weeks. -/
theorem Prediction.update_done (u : Util) (p : Prediction) (b : Binding) (idx : Int)
    (hb : p.bound = some b)
    (hweek : ∀ r, b.data.find? (fun d => decide (some (jsMod d.week 100) = jsGet b.weeks idx))
      = some r → ∃ a ∈ b.actual, a.week = r.week)
    (h4 : ∀ (w : Int) (ws : List Int), (u.getNextWeeks w ws).length ≤ 4) :
    ∃ p1, p.update u idx = Completion.done p1 := by
  cases hfind : b.data.find? (fun d => decide (some (jsMod d.week 100) = jsGet b.weeks idx)) with
  | none =>
    have hnone : ∀ d ∈ b.data, some (jsMod d.week 100) ≠ jsGet b.weeks idx := by
      intro d hd
      have := List.find?_eq_none.mp hfind d hd
      simpa using this
    exact ⟨_, Prediction.update_of_no_match u p b idx hb hnone⟩
  | some r =>
    have hsome : (b.actual.find? (fun d => decide (d.week = r.week))).isSome := by
      rw [List.find?_isSome]
      obtain ⟨a, ha1, ha2⟩ := hweek r hfind
      exact ⟨a, ha1, by simpa using ha2⟩
    obtain ⟨a, hfa⟩ := Option.isSome_iff_exists.mp hsome
    obtain ⟨rest, hrest⟩ := Prediction.horizonPoints_exist p.cid r _ (h4 r.week b.weeks)
    obtain ⟨p1, hupd, _⟩ := Prediction.update_of_match u p b idx r a rest hb hfind hfa hrest
    exact ⟨p1, hupd⟩

theorem TimeChart.updateEach_done (u : Util) (idx : Int) :
    ∀ (ps : List Prediction), (∀ p ∈ ps, ∃ p1, p.update u idx = Completion.done p1) →
      ∃ ps1, TimeChart.updateEach u idx ps = Completion.done ps1 ∧ ps1.length = ps.length
  | [], _ => ⟨[], rfl, rfl⟩
  | p :: rest, h => by
    obtain ⟨p1, hp1⟩ := h p (List.mem_cons_self p rest)
    obtain ⟨rest1, hrest1, hlen⟩ := TimeChart.updateEach_done u idx rest
      (fun q hq => h q (List.mem_cons_of_mem p hq))
    exact ⟨p1 :: rest1, by simp only [TimeChart.updateEach, hp1, hrest1], by simp [hlen]⟩

theorem jsGet_isSome_of_range {α : Type} (xs : List α) (i : Int) (h0 : 0 ≤ i)
    (h1 : i ≤ (xs.length : Int) - 1) : ∃ x, jsGet xs i = some x := by
  have hlt : i.toNat < xs.length := by omega
  refine ⟨xs[i.toNat], ?_⟩
  unfold jsGet
  rw [if_neg (by omega), List.getElem?_eq_getElem hlt]

/-- C5, counterexample: the dataset `otherSeasonDataset` has three actual slots, one
per local week 40, 41, 42, and a model with all seven targets; plotted on a new chart,
`update(0)` raises, because the record located by local week 40 is of week 201540,
which the actual series (201640 to 201642) does not hold. -/
theorem timechart_update_counterexample :
    otherSeasonDataset.actual ≠ [] ∧
      (otherSeasonDataset.actual.map (fun d => jsMod d.week 100)).Nodup ∧
      (sampleChart.plot sampleUtil otherSeasonDataset).weeks = some [40, 41, 42] ∧
      ((sampleChart.plot sampleUtil otherSeasonDataset).update sampleUtil 0).isDone = false := by
  refine ⟨by decide, by decide, by decide, by decide⟩

/-- C5, as the code has it.  On a chart that holds no marker of an earlier plot, for
a dataset and an index `idx` in `[0, weeks.length - 1]` such that, for every model,
the record located for `weeks[idx]` (if there is one) has its week in the actual
series, and with `util.getNextWeeks` yielding at most four weeks,
`update(idx)` after `plot(dataset)` returns, whether or not each model has a record
for `weeks[idx]`; the cursor is then `idx`. -/
theorem timechart_update_completes (u : Util) (c : TimeChart) (data : Dataset) (idx : Int)
    (hfresh : c.predictions = [])
    (h0 : 0 ≤ idx) (h1 : idx ≤ (data.actual.length : Int) - 1)
    (hweek : ∀ m ∈ data.models, ∀ r,
      m.predictions.find? (fun d => decide (some (jsMod d.week 100) =
        jsGet (data.actual.map (fun d => jsMod d.week 100)) idx)) = some r →
      ∃ a ∈ data.actual, a.week = r.week)
    (h4 : ∀ (w : Int) (ws : List Int), (u.getNextWeeks w ws).length ≤ 4) :
    ∃ c1, (c.plot u data).update u idx = Completion.done c1 ∧ c1.weekIdx = some idx ∧
      c1.predictions.length = data.models.length := by
  obtain ⟨d, hd⟩ := jsGet_isSome_of_range data.actual idx h0 h1
  have hpred := TimeChart.plot_predictions u c data
  rw [hfresh, List.map_nil, List.nil_append] at hpred
  have hall : ∀ p ∈ (c.plot u data).predictions, ∃ p1, p.update u idx = Completion.done p1 := by
    intro p hp
    rw [hpred] at hp
    obtain ⟨m, hm, hpm⟩ := List.mem_map.mp hp
    subst hpm
    exact Prediction.update_done u _ _ idx rfl (hweek m hm) h4
  obtain ⟨ps1, hps1, hlen⟩ := TimeChart.updateEach_done u idx _ hall
  have htime : (c.plot u data).timerect.update idx =
      Completion.done { (c.plot u data).timerect with width := some (jsMod d.week 100) } := by
    simp only [TimeChart.plot, TimeRect.plot, TimeRect.update, hd]
  have hupd : (c.plot u data).update u idx = Completion.done
      { c.plot u data with
        weekIdx := some idx
        timerect := { (c.plot u data).timerect with width := some (jsMod d.week 100) }
        predictions := ps1 } := by
    simp only [TimeChart.update, htime, hps1]
  refine ⟨_, hupd, rfl, ?_⟩
  simp only [hlen, hpred, List.length_map]

/-- C5, witness: `sampleDataset` on a new chart, at index 0 (model `m` has a record
for week 40) and at index 1 (it has none). -/
theorem timechart_update_completes_witness :
    (∃ c1, (sampleChart.plot sampleUtil sampleDataset).update sampleUtil 0 = Completion.done c1 ∧
        c1.weekIdx = some 0 ∧ c1.predictions.length = sampleDataset.models.length) ∧
      (∃ c1, (sampleChart.plot sampleUtil sampleDataset).update sampleUtil 1 = Completion.done c1 ∧
        c1.weekIdx = some 1 ∧ c1.predictions.length = sampleDataset.models.length) :=
  ⟨timechart_update_completes sampleUtil sampleChart sampleDataset 0 rfl (by decide) (by decide)
      (by
        intro m hm r hr
        simp only [sampleDataset, List.mem_singleton] at hm
        subst hm
        have hr1 : r = sampleRecord := by
          have h := List.mem_of_find?_eq_some hr
          simpa using h
        subst hr1
        exact ⟨{ week := 201540, data := 1 }, by decide, by decide⟩)
      (by intro w ws; simp [sampleUtil]),
   timechart_update_completes sampleUtil sampleChart sampleDataset 1 rfl (by decide) (by decide)
      (by
        intro m hm r hr
        simp only [sampleDataset, List.mem_singleton] at hm
        subst hm
        have hr1 : r = sampleRecord := by
          have h := List.mem_of_find?_eq_some hr
          simpa using h
        subst hr1
        exact ⟨{ week := 201540, data := 1 }, by decide, by decide⟩)
      (by intro w ws; simp [sampleUtil])⟩

/-- C6, counterexample: after `plot(sampleDataset)` the chart has three weeks and the
cursor is at index 2; `update(5)` raises, and it leaves the cursor at `5`, outside
`[0, 2]`. -/
theorem timechart_update_out_of_range_counterexample :
    (sampleChart.plot sampleUtil sampleDataset).weeks = some [40, 41, 42] ∧
      (sampleChart.plot sampleUtil sampleDataset).weekIdx = some 2 ∧
      ((sampleChart.plot sampleUtil sampleDataset).update sampleUtil 5).isDone = false ∧
      ((sampleChart.plot sampleUtil sampleDataset).update sampleUtil 5).state.weekIdx = some 5 := by
  refine ⟨by decide, by decide, by decide, by decide⟩

/-- C6, as the code has it.  On a chart whose time rectangle holds the actual series
of the last plot, one slot per week of `weeks`, `update(idx)` with `idx` outside
`[0, weeks.length - 1]` raises (in `TimeRect.update`, reading `data[idx].week`);
by then the cursor has been set to `idx`, and nothing else has changed: no marker
has been updated. -/
theorem timechart_update_out_of_range (u : Util) (c : TimeChart) (weeks : List Int)
    (actual : List Observation) (idx : Int)
    (hweeks : c.weeks = some weeks) (hrect : c.timerect.data = some actual)
    (hlen : actual.length = weeks.length)
    (hout : idx < 0 ∨ (weeks.length : Int) - 1 < idx) :
    c.update u idx = Completion.threw { c with weekIdx := some idx } ∧
      (c.update u idx).state.weeks = some weeks ∧
      (c.update u idx).state.weekIdx = some idx := by
  have hget : jsGet actual idx = none := by
    rcases hout with h | h
    · exact jsGet_of_neg actual idx h
    · exact jsGet_of_length_le actual idx (by omega)
  have hupd : c.update u idx = Completion.threw { c with weekIdx := some idx } := by
    simp only [TimeChart.update, TimeRect.update, hrect, hget]
  rw [hupd]
  exact ⟨rfl, hweeks, rfl⟩

/-- C6, witness: `update(5)` and `update(-1)` on the chart plotted with `sampleDataset`. -/
theorem timechart_update_out_of_range_witness :
    (sampleChart.plot sampleUtil sampleDataset).update sampleUtil 5 =
        Completion.threw { sampleChart.plot sampleUtil sampleDataset with weekIdx := some 5 } ∧
      (sampleChart.plot sampleUtil sampleDataset).update sampleUtil (-1) =
        Completion.threw { sampleChart.plot sampleUtil sampleDataset with weekIdx := some (-1) } :=
  ⟨(timechart_update_out_of_range sampleUtil (sampleChart.plot sampleUtil sampleDataset)
      [40, 41, 42] sampleActual 5 (by decide) rfl (by decide) (Or.inr (by decide))).1,
   (timechart_update_out_of_range sampleUtil (sampleChart.plot sampleUtil sampleDataset)
      [40, 41, 42] sampleActual (-1) (by decide) rfl (by decide) (Or.inl (by decide))).1⟩

/-- C7, the code on a second plot: `sampleDataset` has one model; plotted twice on the
same chart, the chart holds two prediction markers, the first of them the marker of
the first plot (its groups removed), and a later `update(0)` updates that marker
too: it builds its three-point trajectory like the new one. -/
theorem timechart_second_plot_keeps_markers :
    sampleDataset.models.length = 1 ∧
      (sampleChart.plot sampleUtil sampleDataset).predictions.length = 1 ∧
      ((sampleChart.plot sampleUtil sampleDataset).plot sampleUtil sampleDataset).predictions.length
        = 2 ∧
      (((sampleChart.plot sampleUtil sampleDataset).plot sampleUtil sampleDataset).predictions.map
        (fun p => p.removed)) = [true, false] ∧
      ((((sampleChart.plot sampleUtil sampleDataset).plot sampleUtil sampleDataset).update
        sampleUtil 0).state.predictions.map (fun p => p.trajectory.length)) = [3, 3] := by
  refine ⟨by decide, by decide, by decide, by decide, by decide⟩

/-! ## The week scale -/

theorem floor_add_fraction (w : Int) (f : ℚ) (hf0 : 0 ≤ f) (hf1 : f < 1) :
    ⌊(w : ℚ) + f⌋ = w := by
  rw [Int.floor_eq_iff]
  constructor <;> linarith

/-- What line 157 computes for a week `w ≥ 0` of the chart and a fraction `f` in
`[0, 1)`: the pixel of the first index of `w`, plus `f` itself. -/
theorem xScaleWeek_adds_raw_fraction (weeks : List Int) (width : ℚ) (w : Int) (f : ℚ)
    (hw : w ∈ weeks) (hw0 : 0 ≤ w) (hf0 : 0 ≤ f) (hf1 : f < 1) :
    xScaleWeek weeks width ((w : ℚ) + f) = xScale weeks width (weeks.indexOf w : Int) + f := by
  have hnn : (0 : ℚ) ≤ (w : ℚ) + f := by
    have : (0 : ℚ) ≤ (w : ℚ) := by exact_mod_cast hw0
    linarith
  simp only [xScaleWeek, jsFrac, floor_add_fraction w f hf0 hf1, jsIndexOf_of_mem weeks w hw,
    if_pos hnn]
  push_cast
  ring

/-- C8, the code at weeks `[40, 41, 42]`, width `100`, value `40.5`: the week scale
returns `xScale(0) + 0.5 = 0.5`, whereas interpolating between `xScale(0) = 0` and
`xScale(1) = 50` gives `25`. -/
theorem xScaleWeek_half_week_not_interpolated :
    xScaleWeek [40, 41, 42] 100 ((40 : ℚ) + 1 / 2) = 1 / 2 ∧
      xScale [40, 41, 42] 100 0 +
        1 / 2 * (xScale [40, 41, 42] 100 1 - xScale [40, 41, 42] 100 0) = 25 ∧
      xScaleWeek [40, 41, 42] 100 ((40 : ℚ) + 1 / 2) ≠
        xScale [40, 41, 42] 100 0 +
          1 / 2 * (xScale [40, 41, 42] 100 1 - xScale [40, 41, 42] 100 0) := by
  have h := xScaleWeek_adds_raw_fraction [40, 41, 42] 100 40 (1 / 2) (by decide) (by decide)
    (by norm_num) (by norm_num)
  have hidx : (([40, 41, 42] : List Int).indexOf (40 : Int) : Int) = 0 := by decide
  have hcast : (((40 : Int) : ℚ)) = (40 : ℚ) := by norm_num
  rw [hidx, hcast] at h
  have hx : xScaleWeek [40, 41, 42] 100 ((40 : ℚ) + 1 / 2) = 1 / 2 := by
    rw [h]
    norm_num [xScale]
  have hy : xScale [40, 41, 42] 100 0 +
      1 / 2 * (xScale [40, 41, 42] 100 1 - xScale [40, 41, 42] 100 0) = 25 := by
    norm_num [xScale]
  refine ⟨hx, hy, ?_⟩
  rw [hx, hy]
  norm_num

/-- C9, counterexample: with weeks `[40, 41, 42]` and width `100`, week `7` is not a
week of the chart, and the week scale returns the pixel `-50` for it. -/
theorem xScaleWeek_unknown_week_counterexample :
    ⌊(7 : ℚ)⌋ ∉ ([40, 41, 42] : List Int) ∧ xScaleWeek [40, 41, 42] 100 7 = -50 := by
  have hfl : ⌊(7 : ℚ)⌋ = 7 := by
    simp
  refine ⟨by rw [hfl]; decide, ?_⟩
  have hidx : jsIndexOf ([40, 41, 42] : List Int) 7 = -1 := by decide
  simp only [xScaleWeek, hfl, hidx, jsFrac, xScale]
  norm_num

/-- C9, as the code has it: for a value whose floor is not a week of the chart,
`indexOf` yields `-1` and the week scale returns the number
`xScale(-1) + value % 1`; nothing is raised. -/
theorem xScaleWeek_unknown_week (weeks : List Int) (width d : ℚ) (h : ⌊d⌋ ∉ weeks) :
    xScaleWeek weeks width d = xScale weeks width (-1) + jsFrac d := by
  simp only [xScaleWeek, jsIndexOf_of_not_mem weeks _ h]
  norm_num

/-- C9, witness: week `7` on the chart with weeks `[40, 41, 42]`. -/
theorem xScaleWeek_unknown_week_witness :
    xScaleWeek [40, 41, 42] 100 7 = xScale [40, 41, 42] 100 (-1) + jsFrac 7 :=
  xScaleWeek_unknown_week [40, 41, 42] 100 7
    (by
      have hfl : ⌊(7 : ℚ)⌋ = 7 := by
        simp
      rw [hfl]
      decide)

/-! ## The actual line -/

/-- C10. After `Actual.plot(data)` the line and the point markers are bound to the
entries of `data` whose `data` field is not `-1`, in the order of `data` (a
sublist of `data` holding exactly those entries), while the series kept for queries
is `data` itself: `query(i)` returns `data[i].data` for every `i` in
`[0, data.length - 1]`, the sentinel `-1` included. -/
theorem actual_plot_excludes_sentinel (a : Actual) (data : List Observation) :
    (a.plot data).line = data.filter (fun d => decide (d.data ≠ -1)) ∧
      (a.plot data).circles = (a.plot data).line ∧
      (a.plot data).line.Sublist data ∧
      (∀ d, d ∈ (a.plot data).line ↔ d ∈ data ∧ d.data ≠ -1) ∧
      (a.plot data).data = some data ∧
      ∀ i : Nat, ∀ h : i < data.length, (a.plot data).query (i : Int) = some (data[i]).data := by
  refine ⟨rfl, rfl, List.filter_sublist data, ?_, rfl, ?_⟩
  · intro d
    simp [Actual.plot]
  · intro i h
    simp only [Actual.query, Actual.plot, jsGet_natCast, List.getElem?_eq_getElem h]

/-- C10, witness: the spec's example.  For `[{week: 1, data: -1}, {week: 2, data: 5}]`
the line and the circles hold the one point of week 2, and `query(0)` is `-1`. -/
theorem actual_plot_excludes_sentinel_witness :
    (Actual.create.plot sentinelThenFive).line = [{ week := 2, data := 5 }] ∧
      (Actual.create.plot sentinelThenFive).circles = [{ week := 2, data := 5 }] ∧
      (Actual.create.plot sentinelThenFive).query ((0 : Nat) : Int) = some (-1) :=
  have h := actual_plot_excludes_sentinel Actual.create sentinelThenFive
  ⟨by rw [h.1]; decide, by rw [h.2.1, h.1]; decide, h.2.2.2.2.2 0 (by decide)⟩

/-! ## `Observed.query` outside the stored list -/

theorem Observed.filteredData_of_plots (plots : List (List ObservedRevision)) :
    ∀ o : Observed, o.filteredData = none →
      (plots.foldl Observed.plot o).filteredData = none := by
  induction plots with
  | nil => intro o h; exact h
  | cons d rest ih =>
    intro o h
    exact ih (o.plot d) h

/-- After an `update(idx)` that returned, the stored list has `idx + 1` entries
(none when `idx` is negative). -/
theorem Observed.update_filteredData_length (o o1 : Observed) (idx : Int)
    (h : o.update idx = Completion.done o1) :
    ∃ fd, o1.filteredData = some fd ∧ fd.length = (idx + 1).toNat := by
  unfold Observed.update at h
  cases hp : pushEach (Observed.entryAt o.data idx) (List.range (idx + 1).toNat) with
  | none => simp [hp] at h
  | some fd =>
    simp only [hp, Completion.done.injEq] at h
    subst h
    refine ⟨fd.reverse, rfl, ?_⟩
    rw [List.length_reverse, pushEach_length _ _ _ hp, List.length_range]

/-- C11. `Observed.query(j)` returns a value for every marker and every integer `j`
(the read that can raise is inside its `try`), and that value is `false` in each of
these cases: the stored list is unassigned; the marker is newly constructed, or
constructed and plotted any number of times, `update` never having been called;
`j` is outside `[0, idx]`, `idx` being the argument of the most recent `update` that
returned. -/
theorem observed_query_absent (o : Observed) (j : Int) :
    (o.filteredData = none → o.query j = JSVal.fls) ∧
      (∀ plots : List (List ObservedRevision),
        (plots.foldl Observed.plot Observed.create).query j = JSVal.fls) ∧
      (∀ (idx : Int) (o1 : Observed), o.update idx = Completion.done o1 →
        (j < 0 ∨ idx < j) → o1.query j = JSVal.fls) := by
  have hnone : ∀ o2 : Observed, o2.filteredData = none → o2.query j = JSVal.fls := by
    intro o2 h
    simp only [Observed.query, h]
  refine ⟨hnone o, ?_, ?_⟩
  · intro plots
    exact hnone _ (Observed.filteredData_of_plots plots Observed.create rfl)
  · intro idx o1 hupd hout
    obtain ⟨fd, hfd, hlen⟩ := Observed.update_filteredData_length o o1 idx hupd
    have hget : jsGet fd j = none := by
      by_cases hneg : j < 0
      · exact jsGet_of_neg fd j hneg
      · exact jsGet_of_length_le fd j (by omega)
    simp only [Observed.query, hfd, hget]

/-- C11, witness: the marker of the spec's example.  Before any update `query(0)` is
`false`; after `update(1)`, whose list has the indices 0 and 1, `query(2)` and
`query(-1)` are `false`. -/
theorem observed_query_absent_witness :
    threeWeeksObserved.query 0 = JSVal.fls ∧
      (threeWeeksObserved.update 1).state.query 2 = JSVal.fls ∧
      (threeWeeksObserved.update 1).state.query (-1) = JSVal.fls :=
  ⟨(observed_query_absent threeWeeksObserved 0).1 rfl,
   (observed_query_absent threeWeeksObserved 2).2.2 1 (threeWeeksObserved.update 1).state
      rfl (Or.inr (by decide)),
   (observed_query_absent threeWeeksObserved (-1)).2.2 1 (threeWeeksObserved.update 1).state
      rfl (Or.inl (by decide))⟩

/-! ## The baseline -/

/-- C12, counterexample: `plot(0)` on a newly constructed baseline marker hides it, and
its line is not moved. -/
theorem baseline_plot_zero_counterexample :
    (Baseline.create.plot (some 0)).visible = false ∧
      (Baseline.create.plot (some 0)).line = Baseline.create.line := by
  refine ⟨by decide, by decide⟩

/-- C12, as the code has it.  `Baseline.plot(value)` tests `if (data)`: for `null` and
for `0` the marker is hidden and its line and title are left where they were; for
every other number the marker is shown and the line and the title are placed at
`yScale(value)`. -/
theorem baseline_plot_hidden_iff_falsy (b : Baseline) :
    b.plot none = { b with visible := false } ∧
      b.plot (some 0) = { b with visible := false } ∧
      (∀ v : ℚ, v ≠ 0 → b.plot (some v) = { visible := true, line := some v, title := some v }) ∧
      (∀ data : Option ℚ, (b.plot data).visible = true ↔ ∃ v, data = some v ∧ v ≠ 0) := by
  refine ⟨rfl, ?_, ?_, ?_⟩
  · simp [Baseline.plot, Baseline.truthy, Baseline.hide]
  · intro v hv
    simp [Baseline.plot, Baseline.truthy, Baseline.show, hv]
  · intro data
    cases data with
    | none => simp [Baseline.plot, Baseline.truthy, Baseline.hide]
    | some v =>
      by_cases hv : v = 0
      · simp [Baseline.plot, Baseline.truthy, Baseline.hide, hv]
      · simp [Baseline.plot, Baseline.truthy, Baseline.show, hv]

/-- C12, witness: `plot(2)` shows the marker and places its line at `yScale(2)`. -/
theorem baseline_plot_hidden_iff_falsy_witness :
    Baseline.create.plot (some 2) = { visible := true, line := some 2, title := some 2 } :=
  (baseline_plot_hidden_iff_falsy Baseline.create).2.2.1 2 (by norm_num)

/-! ## Visibility of a prediction marker whose legend toggle is off -/

/-- The update of a marker that the legend hides shows nothing: its groups keep the
visibility they had when a record matches. -/
theorem Prediction.update_keeps_visibility_of_legendHidden (u : Util) (p : Prediction)
    (b : Binding) (idx : Int) (r : PredictionRecord) (a : Observation)
    (rest : List TrajectoryPoint)
    (hb : p.bound = some b) (hl : b.legendHidden = true)
    (hr : b.data.find? (fun d => decide (some (jsMod d.week 100) = jsGet b.weeks idx)) = some r)
    (ha : b.actual.find? (fun d => decide (d.week = r.week)) = some a)
    (hrest : pushEach (Prediction.horizonPoint p.cid r) (u.getNextWeeks r.week b.weeks).enum
      = some rest) :
    ∃ p1, p.update u idx = Completion.done p1 ∧
      p1.onsetVisible = p.onsetVisible ∧ p1.peakVisible = p.peakVisible ∧
      p1.predictionVisible = p.predictionVisible := by
  obtain ⟨p1, hupd, _, _, _, ho, hp, hq, _⟩ :=
    Prediction.update_of_match u p b idx r a rest hb hr ha hrest
  rw [hl] at ho hp hq
  exact ⟨p1, hupd, by simpa using ho, by simpa using hp, by simpa using hq⟩

/-- C13, the code on a newly constructed marker whose legend toggle is off:
`legendOffMarker` has `legendHidden` true and a record for week 40; its first
`update(0)` returns and leaves the onset, peak and trajectory groups visible. -/
theorem prediction_legend_off_first_update_visible :
    legendOffMarker.bound.map (fun b => b.legendHidden) = some true ∧
      (legendOffMarker.update sampleUtil 0).isDone = true ∧
      (legendOffMarker.update sampleUtil 0).state.hidden = false ∧
      (legendOffMarker.update sampleUtil 0).state.onsetVisible = true ∧
      (legendOffMarker.update sampleUtil 0).state.peakVisible = true ∧
      (legendOffMarker.update sampleUtil 0).state.predictionVisible = true := by
  refine ⟨by decide, by decide, by decide, by decide, by decide, by decide⟩

/-! ## `plot`: weeks, cursor and notification -/

/-- C14. For a dataset with a non-empty actual series, `TimeChart.plot(dataset)` sets
`weeks` to the list of `actual[i].week % 100` (same length, same order), sets the
cursor `weekIdx` to the last index `weeks.length - 1`, and its call of the week hook
(the last one recorded) carries that index as `idx` and the week at that index as
`name`. -/
theorem timechart_plot_sets_weeks_and_cursor (u : Util) (c : TimeChart) (data : Dataset)
    (hne : data.actual ≠ []) :
    ∃ weeks : List Int,
      (c.plot u data).weeks = some weeks ∧
      weeks = data.actual.map (fun d => jsMod d.week 100) ∧
      weeks.length = data.actual.length ∧
      (∀ (i : Nat) (d : Observation), data.actual[i]? = some d →
        weeks[i]? = some (jsMod d.week 100)) ∧
      (c.plot u data).weekIdx = some ((weeks.length : Int) - 1) ∧
      (0 ≤ (weeks.length : Int) - 1) ∧
      (c.plot u data).hooked =
        c.hooked ++ [{ idx := some ((weeks.length : Int) - 1),
                       name := jsGet weeks ((weeks.length : Int) - 1) }] ∧
      (∃ w, jsGet weeks ((weeks.length : Int) - 1) = some w) := by
  have hpos : 0 < data.actual.length := List.length_pos.mpr hne
  refine ⟨data.actual.map (fun d => jsMod d.week 100), ?_, rfl, List.length_map _ _, ?_, ?_,
    ?_, ?_, ?_⟩
  · simp only [TimeChart.plot]
  · intro i d hd
    rw [List.getElem?_map, hd]
    rfl
  · simp only [TimeChart.plot, List.length_map]
  · rw [List.length_map]
    omega
  · simp only [TimeChart.plot, List.length_map]
  · apply jsGet_isSome_of_range
    · rw [List.length_map]
      omega
    · exact le_refl _

/-- C14, witness: `plot(sampleDataset)` on a new chart gives weeks `[40, 41, 42]`, the
cursor at index 2, and one notification `{ idx: 2, name: 42 }`. -/
theorem timechart_plot_sets_weeks_and_cursor_witness :
    (sampleChart.plot sampleUtil sampleDataset).weeks = some [40, 41, 42] ∧
      (sampleChart.plot sampleUtil sampleDataset).weekIdx = some 2 ∧
      (sampleChart.plot sampleUtil sampleDataset).hooked = [{ idx := some 2, name := some 42 }] := by
  obtain ⟨weeks, hw, hweeks, _, _, hidx, _, hhook, _⟩ :=
    timechart_plot_sets_weeks_and_cursor sampleUtil sampleChart sampleDataset (by decide)
  have hlist : weeks = [40, 41, 42] := by rw [hweeks]; decide
  subst hlist
  exact ⟨hw, hidx, hhook⟩

/-! ## The trajectory of a prediction marker -/

/-- C15. For a bound `Prediction` marker with selector `cid` and an index `idx` whose
located record `r` has its issuing week in the actual series (and with
`util.getNextWeeks` returning at most four weeks), `update(idx)` returns and builds a
trajectory of one point per next week after point 0.  Point 0 is
`{ week: r.week % 100, data = low = high = the actual value at week r.week }`; the
point of the `k`-th next week (counted from `0`) has that week, the point of the
`k`-th horizon target as `data`, and its `low[cid]` and `high[cid]` as `low` and
`high`; the onset and peak ranges of the same update are read at the same `cid`. -/
theorem prediction_update_builds_trajectory (u : Util) (p : Prediction) (b : Binding)
    (idx : Int) (r : PredictionRecord)
    (hb : p.bound = some b)
    (hr : b.data.find? (fun d => decide (some (jsMod d.week 100) = jsGet b.weeks idx)) = some r)
    (ha : ∃ a0 ∈ b.actual, a0.week = r.week)
    (h4 : (u.getNextWeeks r.week b.weeks).length ≤ 4) :
    ∃ (p1 : Prediction) (a : Observation),
      p.update u idx = Completion.done p1 ∧
      b.actual.find? (fun d => decide (d.week = r.week)) = some a ∧ a.week = r.week ∧
      p1.trajectory.length = 1 + (u.getNextWeeks r.week b.weeks).length ∧
      p1.trajectory[0]? =
        some { week := jsMod r.week 100, data := a.data, low := some a.data,
               high := some a.data } ∧
      (∀ (k : Nat) (w : Int), (u.getNextWeeks r.week b.weeks)[k]? = some w →
        ∃ iv, horizon r k = some iv ∧
          p1.trajectory[k + 1]? =
            some { week := w, data := iv.point, low := (iv.low[p.cid]?),
                   high := (iv.high[p.cid]?) }) ∧
      p1.onset = some { mark := r.onsetWeek.point, low := (r.onsetWeek.low[p.cid]?),
                        high := (r.onsetWeek.high[p.cid]?) } ∧
      p1.peak = some { week := r.peakWeek.point, percent := r.peakPercent.point,
                       weekLow := (r.peakWeek.low[p.cid]?),
                       weekHigh := (r.peakWeek.high[p.cid]?),
                       percentLow := (r.peakPercent.low[p.cid]?),
                       percentHigh := (r.peakPercent.high[p.cid]?) } ∧
      p1.cid = p.cid := by
  have hsome : (b.actual.find? (fun d => decide (d.week = r.week))).isSome := by
    rw [List.find?_isSome]
    obtain ⟨a0, ha1, ha2⟩ := ha
    exact ⟨a0, ha1, by simpa using ha2⟩
  obtain ⟨a, hfa⟩ := Option.isSome_iff_exists.mp hsome
  have haweek : a.week = r.week := by
    have h1 := List.find?_some hfa
    simpa using h1
  obtain ⟨rest, hrest⟩ := Prediction.horizonPoints_exist p.cid r _ h4
  obtain ⟨p1, hupd, _, htraj, _, _, _, _, honset, hpeak, hcid, _⟩ :=
    Prediction.update_of_match u p b idx r a rest hb hr hfa hrest
  have hlen : rest.length = (u.getNextWeeks r.week b.weeks).length := by
    rw [pushEach_length _ _ _ hrest, List.enum_length]
  refine ⟨p1, a, hupd, hfa, haweek, ?_, ?_, ?_, honset, hpeak, hcid⟩
  · rw [htraj, List.length_cons, hlen]
    omega
  · rw [htraj, List.getElem?_cons_zero]
  · intro k w hw
    obtain ⟨iv, hiv, hget⟩ := Prediction.horizonPoints_getElem? p.cid r _ rest hrest k w hw
    refine ⟨iv, hiv, ?_⟩
    rw [htraj, List.getElem?_cons_succ]
    exact hget

/-- C15, witness: model `m` on weeks `[40, 41, 42]` at index 0.  The trajectory is the
actual value `1` at week 40, then `oneWk` at week 41 and `twoWk` at week 42 with their
bounds at `cid = 0`. -/
theorem prediction_update_builds_trajectory_witness :
    ∃ p1, ((Prediction.create 0 "m").plot [("m", true)] [40, 41, 42] [sampleRecord]
          sampleActual).update sampleUtil 0 = Completion.done p1 ∧
      p1.trajectory =
        [{ week := 40, data := 1, low := some 1, high := some 1 },
         { week := 41, data := 11, low := some 10, high := some 12 },
         { week := 42, data := 21, low := some 20, high := some 22 }] := by
  obtain ⟨p1, a, hupd, hfa, _, hlen, h0, hk, _⟩ :=
    prediction_update_builds_trajectory sampleUtil
      ((Prediction.create 0 "m").plot [("m", true)] [40, 41, 42] [sampleRecord] sampleActual)
      { data := [sampleRecord], actual := sampleActual, weeks := [40, 41, 42],
        legendHidden := false,
        displayedData := { elems := [JSVal.fls, JSVal.fls, JSVal.fls], neg := JSVal.undef } }
      0 sampleRecord rfl (by decide)
      ⟨{ week := 201540, data := 1 }, by decide, by decide⟩ (by decide)
  have ha : a = { week := 201540, data := 1 } := by
    have h1 : sampleActual.find? (fun d => decide (d.week = sampleRecord.week))
        = some { week := 201540, data := 1 } := by decide
    rw [h1] at hfa
    exact (Option.some.inj hfa).symm
  subst ha
  obtain ⟨iv1, hiv1, h1⟩ := hk 0 41 (by decide)
  obtain ⟨iv2, hiv2, h2⟩ := hk 1 42 (by decide)
  have e1 : iv1 = sampleRecord.oneWk := (Option.some.inj hiv1).symm
  have e2 : iv2 = sampleRecord.twoWk := (Option.some.inj hiv2).symm
  subst e1 e2
  refine ⟨p1, hupd, ?_⟩
  have hlen3 : p1.trajectory.length = 3 := by
    rw [hlen]
    decide
  apply List.ext_getElem?
  intro n
  match n with
  | 0 => rw [h0]; decide
  | 1 => rw [h1]; decide
  | 2 => rw [h2]; decide
  | n + 3 =>
    rw [List.getElem?_eq_none (by omega), List.getElem?_eq_none (by simp)]

/-! ## What `update` leaves in the cache -/

/-- `Prediction.update(idx)` assigns `displayedData` only at the index of the issuing
local week and at the indices of the next weeks: every other entry keeps the value
it had before the call. -/
theorem Prediction.update_keeps_unwritten (u : Util) (p : Prediction) (b : Binding) (idx : Int)
    (r : PredictionRecord) (a : Observation) (rest : List TrajectoryPoint)
    (hb : p.bound = some b)
    (hr : b.data.find? (fun d => decide (some (jsMod d.week 100) = jsGet b.weeks idx)) = some r)
    (ha : b.actual.find? (fun d => decide (d.week = r.week)) = some a)
    (hrest : pushEach (Prediction.horizonPoint p.cid r) (u.getNextWeeks r.week b.weeks).enum
      = some rest)
    (j : Int) (hj0 : jsIndexOf b.weeks (jsMod r.week 100) ≠ j)
    (hjk : ∀ w ∈ u.getNextWeeks r.week b.weeks, jsIndexOf b.weeks w ≠ j) :
    ∃ (p1 : Prediction) (b1 : Binding), p.update u idx = Completion.done p1 ∧
      p1.bound = some b1 ∧ b1.displayedData.get j = b.displayedData.get j := by
  obtain ⟨p1, hupd, _, _, hbound, _⟩ :=
    Prediction.update_of_match u p b idx r a rest hb hr ha hrest
  have hweeks := Prediction.horizonPoints_weeks p.cid r _ rest hrest
  refine ⟨p1, _, hupd, hbound, ?_⟩
  simp only [Prediction.saveWeekIndexed_cons]
  rw [Cache.get_foldl_of_forall_ne (fun d : TrajectoryPoint => jsIndexOf b.weeks d.week)
    (fun d => JSVal.num d.data) j rest _ ?_]
  · exact Cache.get_set_of_ne _ _ _ _ hj0
  · intro y hy
    apply hjk
    rw [← hweeks]
    exact List.mem_map.mpr ⟨y, hy, rfl⟩

/-- C16, the code over two updates: `sevenWeeksMarker` (legend on) is bound to weeks 40
to 46, its cache seven times `false` after `plot`.  After `update(0)` and then
`update(5)`, both with a matching record, the trajectory is that of index 5, with the
horizon weeks 46 only after the issuing week 45; yet `query(1)`, at week 41, is
`11`, the `oneWk` value that `update(0)` wrote. -/
theorem prediction_cache_keeps_earlier_values :
    sevenWeeksMarker.bound.map (fun b => b.legendHidden) = some false ∧
      sevenWeeksMarker.bound.map (fun b => b.displayedData.elems)
        = some (List.replicate 7 JSVal.fls) ∧
      sevenWeeksMarker.bound.map (fun b => b.weeks[1]?) = some (some 41) ∧
      ((sevenWeeksMarker.update sampleUtil 0).state.update sampleUtil 5).isDone = true ∧
      (((sevenWeeksMarker.update sampleUtil 0).state.update sampleUtil 5).state.trajectory.map
        (fun d => d.week)) = [45, 46] ∧
      ((sevenWeeksMarker.update sampleUtil 0).state.update sampleUtil 5).state.query 1
        = some (JSVal.num 11) := by
  refine ⟨by decide, by decide, by decide, by decide, by decide, by decide⟩

/-! ## `regionFilter` -/

theorem objSet_of_not_mem (obj : List (String × Interval)) (k : String) (v : Interval)
    (h : k ∉ obj.map Prod.fst) : objSet obj k v = obj ++ [(k, v)] := by
  unfold objSet
  have hany : obj.any (fun e => decide (e.1 = k)) = false := by
    rw [Bool.eq_false_iff]
    intro hcon
    obtain ⟨e, he, hek⟩ := List.any_eq_true.mp hcon
    exact h (List.mem_map.mpr ⟨e, he, by simpa using hek⟩)
  rw [hany]
  rfl

/-- Assigning properties with distinct new names adds them in order. -/
theorem foldl_objSet_of_nodup :
    ∀ (kvs obj : List (String × Interval)), (obj.map Prod.fst ++ kvs.map Prod.fst).Nodup →
      kvs.foldl (fun o x => objSet o x.1 x.2) obj = obj ++ kvs
  | [], obj, _ => by simp
  | kv :: kvs, obj, h => by
    have hk : kv.1 ∉ obj.map Prod.fst := by
      intro hmem
      have hd := (List.nodup_append.mp h).2.2
      exact hd hmem (by simp)
    rw [List.foldl_cons, objSet_of_not_mem obj kv.1 kv.2 hk]
    have h2 : ((obj ++ [(kv.1, kv.2)]).map Prod.fst ++ kvs.map Prod.fst).Nodup := by
      simpa using h
    rw [foldl_objSet_of_nodup kvs _ h2]
    simp

theorem map_keyName_range (n : Nat) (h : n ≤ 7) :
    (List.range n).map keyName = keyOrder.take n := by
  interval_cases n <;> decide

/-- With at most seven rows the object that the loop of `regionFilter` builds has one
property per row, in order, named after `keyOrder`. -/
theorem regionFilter_eq_enum (data : List Row) (region : String)
    (h7 : (data.filter (fun d => decide (d.region = region))).length ≤ 7) :
    regionFilter data region =
      (data.filter (fun d => decide (d.region = region))).enum.map
        (fun x => (keyName x.1, { point := x.2.point, low := x.2.low, high := x.2.high })) := by
  have hkeys : (((data.filter (fun d => decide (d.region = region))).enum.map
      (fun x => (keyName x.1,
        ({ point := x.2.point, low := x.2.low, high := x.2.high } : Interval)))).map Prod.fst)
      = keyOrder.take (data.filter (fun d => decide (d.region = region))).length := by
    rw [List.map_map, ← map_keyName_range _ h7, ← List.enum_map_fst, List.map_map]
    rfl
  have hnodup : (([] : List (String × Interval)).map Prod.fst ++
      ((data.filter (fun d => decide (d.region = region))).enum.map
        (fun x => (keyName x.1,
          ({ point := x.2.point, low := x.2.low, high := x.2.high } : Interval)))).map
        Prod.fst).Nodup := by
    rw [List.map_nil, List.nil_append, hkeys]
    exact List.Nodup.sublist (List.take_sublist _ _) (by decide)
  have h := foldl_objSet_of_nodup _ [] hnodup
  rw [List.foldl_map, List.nil_append] at h
  exact h

/-- C17. For rows `data` and a region of which at most seven rows are, the object
returned by `regionFilter(data, region)` has as keys exactly the first `n` names of
`onsetWeek, peakWeek, peakPercent, oneWk, twoWk, threeWk, fourWk`, in that order, `n`
being the number of rows of the region; its `i`-th key maps to `{ point, low, high }`
of the `i`-th row of the region in the order of `data`; and a row of another region,
wherever it stands, changes nothing of the result. -/
theorem regionFilter_keys_by_order (data : List Row) (region : String)
    (h7 : (data.filter (fun d => decide (d.region = region))).length ≤ 7) :
    (regionFilter data region).map Prod.fst =
        keyOrder.take (data.filter (fun d => decide (d.region = region))).length ∧
      (regionFilter data region).length =
        (data.filter (fun d => decide (d.region = region))).length ∧
      (∀ (i : Nat) (d : Row), (data.filter (fun d => decide (d.region = region)))[i]? = some d →
        ∃ k, keyOrder[i]? = some k ∧
          (regionFilter data region)[i]? =
            some (k, { point := d.point, low := d.low, high := d.high })) ∧
      (∀ (pre post : List Row) (row : Row), data = pre ++ row :: post → row.region ≠ region →
        regionFilter data region = regionFilter (pre ++ post) region) := by
  have heq := regionFilter_eq_enum data region h7
  refine ⟨?_, ?_, ?_, ?_⟩
  · rw [heq, List.map_map, ← map_keyName_range _ h7, ← List.enum_map_fst, List.map_map]
    rfl
  · rw [heq, List.length_map, List.enum_length]
  · intro i d hd
    have hi : i < (data.filter (fun d => decide (d.region = region))).length :=
      (List.getElem?_eq_some.mp hd).1
    have hi7 : i < keyOrder.length := by
      have : keyOrder.length = 7 := by decide
      omega
    refine ⟨keyOrder[i], List.getElem?_eq_getElem hi7, ?_⟩
    rw [heq, List.getElem?_map, List.getElem?_enum, hd]
    simp only [Option.map_some', keyName, List.getElem?_eq_getElem hi7]
  · intro pre post row hdata hrow
    subst hdata
    unfold regionFilter
    have hf : List.filter (fun d => decide (d.region = region)) (pre ++ row :: post) =
        List.filter (fun d => decide (d.region = region)) (pre ++ post) := by
      rw [List.filter_append, List.filter_append, List.filter_cons_of_neg (by simpa using hrow)]
    rw [hf]

/-- C17, witness: three rows of `nat` with a row of `hhs1` between them. -/
theorem regionFilter_keys_by_order_witness :
    regionFilter sampleRows "nat" =
        [("onsetWeek", { point := 1, low := [0], high := [2] }),
         ("peakWeek", { point := 3, low := [2], high := [4] }),
         ("peakPercent", { point := 5, low := [4], high := [6] })] ∧
      (regionFilter sampleRows "nat").map Prod.fst = keyOrder.take 3 :=
  ⟨by decide, (regionFilter_keys_by_order sampleRows "nat" (by decide)).1⟩

end Flusight
